import Mathlib

/-!
# Checkout flow of `fawry_challenge_solution.cpp`

A shallow embedding of the C++ program: products (base, digital, physical), the
shopping cart, the customer, the shipping service and the `checkout` routine,
followed by theorems about them.

Modelling conventions.

* `double` is modelled by `Double`: IEEE-754 binary64 with round-to-nearest,
  ties-to-even.  A finite value is stored as the integer number of units of
  `2 ^ (-1074)` (the smallest positive subnormal), so every finite double has
  exactly one representation; the two signed zeros are identified (the program
  never divides and never inspects the sign of a zero).
* An `int` is an `Int`, and the two arithmetic operations the program does on
  `int`s, `item.quantity += quantity` and `quantity -= q`, wrap around at 32
  bits (`wrapInt`), as they do when the program runs; the theorems say where a
  result is the plain sum or difference.  A `time_t` is an `Int`.
* `Product*` is a `ProductId` (an address) and the objects it points to live in
  a `Store`, so that the cart and the caller share the same mutable products.
* `time(nullptr)` is an explicit argument `now`.
* Console output is not modelled, except that the outcome of `checkout` records
  which report was printed.
-/

/-! ## IEEE-754 binary64 arithmetic -/

/-- One pass of the bit counter: shifts `n` right by `step` bits as long as
something is left, adding `step` to the count each time. -/
def bitsGo (step : Nat) : Nat → Nat → Nat → Nat × Nat
  | 0, n, acc => (n, acc)
  | fuel + 1, n, acc =>
    if n >>> step = 0 then (n, acc) else bitsGo step fuel (n >>> step) (acc + step)

/-- Floor of the binary logarithm of `n` (and `0` at `n = 0`), computed in
three passes of decreasing step so that large numbers need few iterations. -/
def ilog2 (n : Nat) : Nat :=
  let s1 := bitsGo 1024 n n 0
  let s2 := bitsGo 32 s1.1 s1.1 s1.2
  (bitsGo 1 s2.1 s2.1 s2.2).2

/-- The integer nearest to `n / d`, ties going to the even neighbour. -/
def roundHalfEven (n d : Nat) : Nat :=
  let f := n / d
  let r := n % d
  if 2 * r < d then f else if d < 2 * r then f + 1 else if f % 2 = 0 then f else f + 1

/-- An IEEE-754 binary64 value.  `fin k` is the finite number `k * 2 ^ (-1074)`. -/
inductive Double where
  | nan
  | inf (neg : Bool)
  | fin (k : Int)
  deriving DecidableEq, Repr

namespace Double

/-- The exponent of the unit: a unit is `2 ^ (-1074)`. -/
def unitExponent : Nat := 1074

/-- The number of units in `1.0`: `2 ^ 1074`. -/
def one : Nat := 1 <<< unitExponent

/-- The exponent of the first power of two that is too large for binary64. -/
def overflowExponent : Nat := 1024

/-- The first magnitude (in units) that no longer fits: `2 ^ 1024`, that is
`2 ^ (1074 + 1024)` units. -/
def overflowBound : Nat := 1 <<< (unitExponent + overflowExponent)

/-- Rounds the exact value `n / d` (in units of `2 ^ (-1074)`) to binary64:
keeps 53 significant bits, rounds to nearest with ties to even, and overflows
to an infinity of the same sign. -/
def roundRatio (n : Int) (d : Nat) : Double :=
  let a := n.natAbs
  let shift := (ilog2 (a / d) + 1) - 53
  let r := roundHalfEven a (d <<< shift) <<< shift
  if overflowBound ≤ r then inf (decide (n < 0))
  else fin (if n < 0 then -(r : Int) else (r : Int))

/-- Conversion of an `int` to `double`. -/
def ofInt (z : Int) : Double := roundRatio (z * (one : Int)) 1

/-- The double denoted by the decimal literal with value `n / d`
(for instance `lit 2 10` for `0.2`). -/
def lit (n : Int) (d : Nat) : Double := roundRatio (n * (one : Int)) d

/-- The literal `0.0`. -/
def zero : Double := fin 0

/-- Unary minus. -/
def neg : Double → Double
  | nan => nan
  | inf s => inf (!s)
  | fin k => fin (-k)

/-- Double addition `a + b`. -/
def add : Double → Double → Double
  | fin a, fin b => roundRatio (a + b) 1
  | nan, _ => nan
  | _, nan => nan
  | inf s, inf t => if s = t then inf s else nan
  | inf s, fin _ => inf s
  | fin _, inf t => inf t

/-- Double subtraction `a - b`. -/
def sub (a b : Double) : Double := add a (neg b)

/-- Double multiplication `a * b`. -/
def mul : Double → Double → Double
  | fin a, fin b => roundRatio (a * b) one
  | nan, _ => nan
  | _, nan => nan
  | inf s, inf t => inf (s != t)
  | inf s, fin b => if b = 0 then nan else inf (s != decide (b < 0))
  | fin a, inf t => if a = 0 then nan else inf (decide (a < 0) != t)

/-- The comparison `a < b` (false as soon as one side is NaN). -/
def lt : Double → Double → Bool
  | fin a, fin b => decide (a < b)
  | nan, _ => false
  | _, nan => false
  | inf s, inf t => s && !t
  | inf s, fin _ => s
  | fin _, inf t => !t

/-- The comparison `a <= b` (false as soon as one side is NaN). -/
def le : Double → Double → Bool
  | fin a, fin b => decide (a ≤ b)
  | nan, _ => false
  | _, nan => false
  | inf s, inf t => s || !t
  | inf s, fin _ => s
  | fin _, inf t => !t

/-- The function `ceil` of `<cmath>`: the least integral value not below the
argument; infinities and NaN are returned unchanged. -/
def ceil : Double → Double
  | fin k => fin (-((-k) / (one : Int)) * (one : Int))
  | x => x

/-- The rational number a finite double stands for. -/
def toRat : Double → Option ℚ
  | fin k => some ((k : ℚ) / (one : ℚ))
  | _ => none

/-- Whether a value of the model is a genuine binary64 value: rounding it
again changes nothing. -/
def isRepresentable : Double → Bool
  | fin k => decide (roundRatio k 1 = fin k)
  | _ => true

end Double

/-! ## Machine integers -/

/-- The largest `int`. -/
def INT_MAX : Int := 2147483647

/-- The smallest `int`. -/
def INT_MIN : Int := -2147483648

/-- The `int` a 32-bit two's complement machine keeps of the exact result `z`
of an addition or subtraction: `z` itself when it fits, and `z` shifted by a
multiple of `2 ^ 32` into the range of `int` otherwise. -/
def wrapInt (z : Int) : Int := (z + 2147483648) % 4294967296 - 2147483648

/-! ## Products -/

/-- The three instantiable classes: the base `Product`, `DigitalProduct`, and
`PhysicalProduct` with its `weight` and `expiration` members. -/
inductive ProductKind where
  | base
  | digital
  | physical (weight : Double) (expiration : Int)
  deriving DecidableEq, Repr

/-- The members of class `Product` together with the dynamic type of the object. -/
structure Product where
  name : String
  price : Double
  quantity : Int
  kind : ProductKind
  deriving DecidableEq, Repr

namespace Product

/-- `Product::isAvailable`. -/
def isAvailable (p : Product) (requested : Int) : Bool :=
  decide (p.quantity ≥ requested)

/-- `Product::isExpired` and its override `PhysicalProduct::isExpired`. -/
def isExpired (now : Int) (p : Product) : Bool :=
  match p.kind with
  | .physical _ expiration => if expiration = 0 then false else decide (now > expiration)
  | _ => false

/-- `Product::requiresShipping` and its override in `DigitalProduct`. -/
def requiresShipping (p : Product) : Bool :=
  match p.kind with
  | .digital => false
  | _ => true

/-- `Product::getWeight` and its override in `PhysicalProduct`. -/
def getWeight (p : Product) : Double :=
  match p.kind with
  | .physical weight _ => weight
  | _ => Double.zero

/-- `Product::getName`. -/
def getName (p : Product) : String := p.name

/-- `Product::getPrice`. -/
def getPrice (p : Product) : Double := p.price

/-- `Product::getQuantity`. -/
def getQuantity (p : Product) : Int := p.quantity

/-- `Product::reduceQuantity`: `quantity -= q` on `int`s. -/
def reduceQuantity (p : Product) (q : Int) : Product :=
  { p with quantity := wrapInt (p.quantity - q) }

end Product

/-- A `Product*`: the address of a product object. -/
abbrev ProductId := Nat

/-- The product objects of the session, by address. -/
abbrev Store := ProductId → Product

/-- The store after the object at `id` has been replaced by `p`. -/
def Store.set (store : Store) (id : ProductId) (p : Product) : Store :=
  fun j => if j = id then p else store j

/-- What a `Shippable*` gives access to: `getName` and `getWeight` of the
`PhysicalProduct` it points into. -/
structure Shippable where
  name : String
  weight : Double
  deriving DecidableEq, Repr

/-- The cast `dynamic_cast<Shippable*>(product)`: only a `PhysicalProduct` is a
`Shippable`; for the other classes the cast yields the null pointer (`none`). -/
def dynamicCastShippable (p : Product) : Option Shippable :=
  match p.kind with
  | .physical weight _ => some ⟨p.name, weight⟩
  | _ => none

/-! ## Errors -/

/-- A `std::runtime_error`, identified by its message. -/
structure RuntimeError where
  what : String
  deriving DecidableEq, Repr

/-- Thrown by `addItem` for a quantity that is not positive. -/
def validationError : RuntimeError := ⟨"غير متاح"⟩

/-- Thrown by `addItem` when the product is not available in the quantity asked. -/
def outOfStockError : RuntimeError := ⟨"الكمية المطلوبة غير متوفرة."⟩

/-- Thrown by `addItem` for an expired product. -/
def expiredError : RuntimeError := ⟨"المنتج منتهي الصلاحية."⟩

/-- Thrown by `Customer::deduct` when the balance is too low. -/
def insufficientFundsError : RuntimeError := ⟨"الرصيد غير كاف."⟩

/-! ## The cart -/

/-- `struct CartItem`: a product pointer and the quantity bought. -/
structure CartItem where
  product : ProductId
  quantity : Int
  deriving DecidableEq, Repr

/-- `CartItem::totalPrice`: `product->getPrice() * quantity`. -/
def CartItem.totalPrice (store : Store) (item : CartItem) : Double :=
  Double.mul (store item.product).getPrice (Double.ofInt item.quantity)

/-- `class ShoppingCart`: the vector of lines. -/
structure ShoppingCart where
  items : List CartItem
  deriving DecidableEq, Repr

/-- The result of a call that may throw: the exception, if any, and the cart
as the call leaves it. -/
structure AddResult where
  error : Option RuntimeError
  cart : ShoppingCart
  deriving DecidableEq, Repr

namespace ShoppingCart

/-- The loop and the `push_back` of `addItem`: the first line of `product`
gets `quantity` more (`item.quantity += quantity` on `int`s); without such a
line a new one is appended. -/
def addToLines : List CartItem → ProductId → Int → List CartItem
  | [], product, quantity => [⟨product, quantity⟩]
  | item :: rest, product, quantity =>
    if item.product = product then
      { item with quantity := wrapInt (item.quantity + quantity) } :: rest
    else item :: addToLines rest product quantity

/-- `ShoppingCart::addItem`. -/
def addItem (store : Store) (now : Int) (cart : ShoppingCart) (product : ProductId)
    (quantity : Int) : AddResult :=
  if quantity ≤ 0 then ⟨some validationError, cart⟩
  else if !(store product).isAvailable quantity then ⟨some outOfStockError, cart⟩
  else if (store product).isExpired now then ⟨some expiredError, cart⟩
  else ⟨none, ⟨addToLines cart.items product quantity⟩⟩

/-- `ShoppingCart::isEmpty`. -/
def isEmpty (cart : ShoppingCart) : Bool := cart.items.isEmpty

/-- `ShoppingCart::getSubtotal`. -/
def getSubtotal (store : Store) (cart : ShoppingCart) : Double :=
  cart.items.foldl (fun total item => Double.add total (item.totalPrice store)) Double.zero

/-- `ShoppingCart::getShippableItems`: for every line whose product requires
shipping, `quantity` copies of the cast pointer; the loop
`for (int i = 0; i < item.quantity; i++)` adds none when the quantity is not
positive. -/
def getShippableItems (store : Store) (cart : ShoppingCart) : List (Option Shippable) :=
  cart.items.foldl
    (fun result item =>
      if (store item.product).requiresShipping then
        result ++ List.replicate item.quantity.toNat (dynamicCastShippable (store item.product))
      else result)
    []

/-- `ShoppingCart::getItems`. -/
def getItems (cart : ShoppingCart) : List CartItem := cart.items

/-- `ShoppingCart::clear`. -/
def clear (_cart : ShoppingCart) : ShoppingCart := ⟨[]⟩

/-- The carts a program can hold: the empty cart of the constructor and of
`clear`, and whatever a call of `addItem` (on any products, at any time,
throwing or not) leaves behind. -/
inductive Reachable : ShoppingCart → Prop where
  | empty : Reachable ⟨[]⟩
  | step (store : Store) (now : Int) (cart : ShoppingCart) (product : ProductId)
      (quantity : Int) :
      Reachable cart → Reachable (addItem store now cart product quantity).cart

/-- The carts a program can hold when no `item.quantity += quantity` leaves
the range of `int`: as `Reachable`, with every successful call of `addItem` on
a product that has a line keeping the sum of the line's quantity and the
added quantity at most `INT_MAX`. -/
inductive ReachableNoOverflow : ShoppingCart → Prop where
  | empty : ReachableNoOverflow ⟨[]⟩
  | step (store : Store) (now : Int) (cart : ShoppingCart) (product : ProductId)
      (quantity : Int) :
      ReachableNoOverflow cart →
      ((addItem store now cart product quantity).error = none →
        ∀ item ∈ cart.items, item.product = product →
          item.quantity + quantity ≤ INT_MAX) →
      ReachableNoOverflow (addItem store now cart product quantity).cart

end ShoppingCart

/-! ## The customer -/

/-- `class Customer`. -/
structure Customer where
  name : String
  balance : Double
  deriving DecidableEq, Repr

/-- The result of `Customer::deduct`: the exception, if any, and the customer
as the call leaves it. -/
structure DeductResult where
  error : Option RuntimeError
  customer : Customer
  deriving DecidableEq, Repr

namespace Customer

/-- `Customer::deduct`. -/
def deduct (customer : Customer) (amount : Double) : DeductResult :=
  if Double.lt customer.balance amount then ⟨some insufficientFundsError, customer⟩
  else ⟨none, { customer with balance := Double.sub customer.balance amount }⟩

/-- `Customer::getBalance`. -/
def getBalance (customer : Customer) : Double := customer.balance

end Customer

/-! ## Shipping -/

namespace ShippingService

/-- The summation loop of `calculateFee`.  Calling `getWeight` through a null
pointer has no defined result: `none`. -/
def totalWeight : Double → List (Option Shippable) → Option Double
  | acc, [] => some acc
  | _, none :: _ => none
  | acc, some item :: rest => totalWeight (Double.add acc item.weight) rest

/-- `ShippingService::calculateFee`: `ceil(totalWeight * 30)`. -/
def calculateFee (items : List (Option Shippable)) : Option Double :=
  match totalWeight Double.zero items with
  | none => none
  | some w => some (Double.ceil (Double.mul w (Double.ofInt 30)))

end ShippingService

/-! ## Checkout -/

/-- What `checkout` reported. -/
inductive Outcome where
  /-- The cart was empty: the empty-cart message was printed. -/
  | emptyCart
  /-- The receipt was printed, with these subtotal, shipping fee, total and
  remaining balance. -/
  | settled (subtotal shipping total remaining : Double)
  /-- An exception was caught and reported as a payment error. -/
  | paymentError (e : RuntimeError)
  /-- The fee computation went through a null `Shippable*`: the run has no
  defined continuation. -/
  | nullDereference
  deriving DecidableEq, Repr

/-- The state `checkout` leaves behind, and its outcome. -/
structure CheckoutResult where
  outcome : Outcome
  customer : Customer
  cart : ShoppingCart
  store : Store

/-- The receipt loop of `checkout`, as far as the state goes: every line
reduces the stock of its product by the line quantity. -/
def reduceStock (store : Store) (items : List CartItem) : Store :=
  items.foldl
    (fun s item => s.set item.product ((s item.product).reduceQuantity item.quantity))
    store

/-- The function `checkout`. -/
def checkout (customer : Customer) (cart : ShoppingCart) (store : Store) : CheckoutResult :=
  if cart.isEmpty then ⟨.emptyCart, customer, cart, store⟩
  else
    let subtotal := cart.getSubtotal store
    let shippables := cart.getShippableItems store
    match ShippingService.calculateFee shippables with
    | none => ⟨.nullDereference, customer, cart, store⟩
    | some shipping =>
      let total := Double.add subtotal shipping
      let paid := customer.deduct total
      match paid.error with
      | some e => ⟨.paymentError e, paid.customer, cart, store⟩
      | none =>
        let store1 := reduceStock store cart.getItems
        ⟨.settled subtotal shipping total paid.customer.getBalance, paid.customer,
          cart.clear, store1⟩

/-! ## The demo of `main` -/

/-- The five products `main` builds, at the addresses 0 to 4: `cheese`,
`biscuits`, `tv`, `card` and `expiredCheese`; `validDate` is `now + 86400 * 30`
and `expiredDate` is `now - 86400 * 10`. -/
def demoStore (now : Int) : Store := fun id =>
  match id with
  | 0 => ⟨"جبنة", Double.ofInt 100, 10, .physical (Double.lit 2 10) (now + 86400 * 30)⟩
  | 1 => ⟨"بسكويت", Double.ofInt 150, 5, .physical (Double.lit 7 10) (now + 86400 * 30)⟩
  | 2 => ⟨"تلفزيون", Double.ofInt 500, 3, .physical (Double.lit 35 10) 0⟩
  | 3 => ⟨"كارت شحن", Double.ofInt 25, 20, .digital⟩
  | _ => ⟨"جبنة قديمة", Double.ofInt 80, 2, .physical (Double.lit 2 10) (now - 86400 * 10)⟩

/-- The customer of `main`. -/
def demoCustomer : Customer := ⟨"أحمد", Double.ofInt 1000⟩

/-- The three `addItem` calls of `main`, on a fresh cart. -/
def demoCart (now : Int) : ShoppingCart :=
  let c0 : ShoppingCart := ⟨[]⟩
  let c1 := (ShoppingCart.addItem (demoStore now) now c0 0 2).cart
  let c2 := (ShoppingCart.addItem (demoStore now) now c1 1 1).cart
  (ShoppingCart.addItem (demoStore now) now c2 3 1).cart

/-- The run of `main`: the three `addItem` calls followed by `checkout`. -/
def demoRun (now : Int) : CheckoutResult :=
  checkout demoCustomer (demoCart now) (demoStore now)

/-! ## A single cart that oversells a product -/

/-- A catalog whose product (a digital card, price 25) has one unit in stock. -/
def oversoldStore : Store := fun _ => ⟨"كارت شحن", Double.ofInt 25, 1, .digital⟩

/-- The cart after `addItem(&card, 1)` has been called twice on a fresh cart. -/
def oversoldCart : ShoppingCart :=
  let c1 := (ShoppingCart.addItem oversoldStore 0 ⟨[]⟩ 0 1).cart
  (ShoppingCart.addItem oversoldStore 0 c1 0 1).cart

/-- The checkout of that cart by the customer of `main`. -/
def oversoldRun : CheckoutResult := checkout demoCustomer oversoldCart oversoldStore

/-! ## Constructors -/

/-- The constructor `DigitalProduct(n, p, q)`. -/
def digitalProduct (n : String) (p : Double) (q : Int) : Product :=
  ⟨n, p, q, .digital⟩

/-- The constructor `PhysicalProduct(n, p, q, w, exp = 0)`: `exp` is `none`
when the call leaves the last argument out, and the member `expiration` then
gets the default `0`. -/
def physicalProduct (n : String) (p : Double) (q : Int) (w : Double)
    (exp : Option Int) : Product :=
  ⟨n, p, q, .physical w (exp.getD 0)⟩

/-! ## Sessions: calls on a shared state -/

/-- The objects of a session: the customer, the cart and the products. -/
structure Session where
  customer : Customer
  cart : ShoppingCart
  store : Store

/-- A call on the cart of the session: `cart.addItem(product, quantity)` at
time `now`, or `checkout(customer, cart)`. -/
inductive Call where
  | addItem (now : Int) (product : ProductId) (quantity : Int)
  | checkout
  deriving DecidableEq, Repr

/-- The session after one call (an exception of `addItem` is caught by the
caller and the session goes on). -/
def Session.call (s : Session) : Call → Session
  | .addItem now product quantity =>
    { s with cart := (ShoppingCart.addItem s.store now s.cart product quantity).cart }
  | .checkout =>
    let r := checkout s.customer s.cart s.store
    ⟨r.customer, r.cart, r.store⟩

/-- A call that can touch the balance of a customer: `customer.deduct(amount)`,
or `checkout(customer, cart)` of some cart over some products. -/
inductive BalanceCall where
  | deduct (amount : Double)
  | checkout (cart : ShoppingCart) (store : Store)

/-- The customer after the call. -/
def applyBalanceCall (customer : Customer) : BalanceCall → Customer
  | .deduct amount => (customer.deduct amount).customer
  | .checkout cart store => (checkout customer cart store).customer

/-- The amount the call asks `deduct` to take, if it gets that far: the
argument of a direct call, and `subtotal + shipping` for the checkout of a
non-empty cart whose fee is defined. -/
def BalanceCall.amount : BalanceCall → Option Double
  | .deduct amount => some amount
  | .checkout cart store =>
    if cart.isEmpty then none
    else
      (ShippingService.calculateFee (cart.getShippableItems store)).map
        (fun shipping => Double.add (cart.getSubtotal store) shipping)

/-- Whether the double is a finite number (neither NaN nor an infinity). -/
def Double.isFinite : Double → Bool
  | .fin _ => true
  | _ => false

/-- The number of units of `2 ^ (-1074)` in a finite double (and `0` for NaN
and the infinities): exact sums and products of finite doubles are sums and
products of these numbers. -/
def Double.units : Double → Int
  | .fin k => k
  | _ => 0

/-! ## The closed form of the shipping fee -/

/-- The fee as the closed form states it: the ceiling of 30 times the sum,
over the lines whose product requires shipping, of weight times quantity (no
expansion into units). -/
def ShippingService.closedFormFee (store : Store) (cart : ShoppingCart) : Double :=
  Double.ceil
    (Double.mul
      ((cart.items.filter (fun item => (store item.product).requiresShipping)).foldl
        (fun total item =>
          Double.add total
            (Double.mul (store item.product).getWeight (Double.ofInt item.quantity)))
        Double.zero)
      (Double.ofInt 30))

/-! ## Inputs on which nothing rounds -/

/-- The prices of the products of `main`, in whole currency units. -/
def demoUnits : ProductId → Nat
  | 0 => 100
  | 1 => 150
  | 2 => 500
  | 3 => 25
  | _ => 80

/-- A catalog of a television (physical, price 500, three in stock, weighing
`4.0`, no expiration) at address 0 and digital cards elsewhere. -/
def parcelStore : Store := fun id =>
  match id with
  | 0 => physicalProduct "تلفزيون" (Double.ofInt 500) 3 (Double.ofInt 4) none
  | _ => digitalProduct "كارت شحن" (Double.ofInt 25) 20

/-- The weights of the products of `parcelStore`, in whole kilograms. -/
def parcelUnits : ProductId → Nat
  | 0 => 4
  | _ => 0

/-- The cart after `addItem(&tv, 2)` and `addItem(&card, 1)` on a fresh cart. -/
def parcelCart : ShoppingCart :=
  (ShoppingCart.addItem parcelStore 0 (ShoppingCart.addItem parcelStore 0 ⟨[]⟩ 0 2).cart 1 1).cart

/-! ## Inputs outside the plain cases -/

/-- A catalog whose product is an object of the base class `Product` itself
(price 10, five in stock). -/
def bareStore : Store := fun _ => ⟨"منتج", Double.ofInt 10, 5, .base⟩

/-- The cart after `addItem(&product, 1)` on a fresh cart. -/
def bareCart : ShoppingCart := (ShoppingCart.addItem bareStore 0 ⟨[]⟩ 0 1).cart

/-- A catalog whose product is a free digital card with `INT_MAX` units in
stock. -/
def fullStore : Store := fun _ => digitalProduct "كارت شحن" (Double.ofInt 0) INT_MAX

/-- The cart after `addItem(&card, INT_MAX)` on a fresh cart. -/
def fullCart : ShoppingCart := (ShoppingCart.addItem fullStore 0 ⟨[]⟩ 0 INT_MAX).cart

/-- The products after a first cart of `INT_MAX` cards has been checked
out: the stock is `0`. -/
def fullStore1 : Store := (checkout demoCustomer fullCart fullStore).store

/-- The products after a second such cart, filled before the first checkout,
has been checked out: the stock is `-INT_MAX`. -/
def fullStore2 : Store := (checkout demoCustomer fullCart fullStore1).store

/-- The cart after a second `addItem(&card, INT_MAX)`: the line holds `-2`. -/
def wrappedCart : ShoppingCart := (ShoppingCart.addItem fullStore 0 fullCart 0 INT_MAX).cart

/-- A catalog whose product is physical (biscuits, weight `0.7`, price 150, no
expiration) with `INT_MAX` units in stock. -/
def bulkStore : Store := fun _ =>
  physicalProduct "بسكويت" (Double.ofInt 150) INT_MAX (Double.lit 7 10) none

/-- The cart after `addItem(&biscuits, INT_MAX)` twice on a fresh cart. -/
def bulkCart : ShoppingCart :=
  (ShoppingCart.addItem bulkStore 0
    (ShoppingCart.addItem bulkStore 0 ⟨[]⟩ 0 INT_MAX).cart 0 INT_MAX).cart

/-! ## Inputs on which rounding shows -/

/-- A catalog whose product is physical, weighs `0.7` and has ten units in
stock (price 150, no expiration). -/
def heavyStore : Store := fun _ =>
  physicalProduct "بسكويت" (Double.ofInt 150) 10 (Double.lit 7 10) none

/-- The cart after `addItem(&biscuits, 8)` on a fresh cart. -/
def heavyCart : ShoppingCart := (ShoppingCart.addItem heavyStore 0 ⟨[]⟩ 0 8).cart

/-- A catalog whose product is digital, costs `0.99` and has ten units in
stock. -/
def centsStore : Store := fun _ => digitalProduct "كارت شحن" (Double.lit 99 100) 10

/-- The cart after `addItem(&card, 2)` on a fresh cart. -/
def centsCart : ShoppingCart := (ShoppingCart.addItem centsStore 0 ⟨[]⟩ 0 2).cart

/-- The largest finite double, `(2 ^ 53 - 1) * 2 ^ 971`. -/
def Double.max : Double := Double.ofInt ((((1 <<< 53) - 1) <<< 971 : Nat) : Int)

/-- A catalog whose product is digital and costs `2 ^ 1023` (a finite double). -/
def hugeStore : Store := fun _ =>
  digitalProduct "كارت شحن" (Double.ofInt ((1 <<< 1023 : Nat) : Int)) 10

/-- The cart after `addItem(&card, 2)` on a fresh cart. -/
def hugeCart : ShoppingCart := (ShoppingCart.addItem hugeStore 0 ⟨[]⟩ 0 2).cart

/-! ## The rounding function -/

theorem bitsGo_spec (step : Nat) (hstep : 0 < step) (fuel n acc : Nat) (h : n ≤ fuel) :
    (bitsGo step fuel n acc).1 = n >>> ((bitsGo step fuel n acc).2 - acc) ∧
      acc ≤ (bitsGo step fuel n acc).2 ∧
      (bitsGo step fuel n acc).1 >>> step = 0 ∧
      (n ≠ 0 → (bitsGo step fuel n acc).1 ≠ 0) := by
  induction fuel generalizing n acc with
  | zero =>
    have : n = 0 := by omega
    subst this
    simp [bitsGo]
  | succ fuel ih =>
    unfold bitsGo
    split
    · rename_i h0
      simp [h0]
    · rename_i h0
      have hlt : n >>> step ≤ fuel := by
        have hn : n ≠ 0 := by
          intro e
          apply h0
          simp [e]
        have h2 : n >>> step ≤ n / 2 := by
          rw [Nat.shiftRight_eq_div_pow]
          apply Nat.div_le_div_left _ (by norm_num)
          calc 2 = 2 ^ 1 := by norm_num
            _ ≤ 2 ^ step := Nat.pow_le_pow_right (by norm_num) hstep
        omega
      obtain ⟨h1, h2, h3, h4⟩ := ih (n >>> step) (acc + step) hlt
      refine ⟨?_, by omega, h3, fun _ => h4 h0⟩
      rw [h1, ← Nat.shiftRight_add]
      congr 1
      omega

theorem ilog2_spec (n : Nat) (hn : n ≠ 0) : 2 ^ ilog2 n ≤ n ∧ n < 2 ^ (ilog2 n + 1) := by
  obtain ⟨a1, _, _, a4⟩ := bitsGo_spec 1024 (by norm_num) n n 0 (le_refl _)
  obtain ⟨b1, b2, _, b4⟩ := bitsGo_spec 32 (by norm_num) (bitsGo 1024 n n 0).1
    (bitsGo 1024 n n 0).1 (bitsGo 1024 n n 0).2 (le_refl _)
  obtain ⟨c1, c2, c3, c4⟩ := bitsGo_spec 1 (by norm_num)
    (bitsGo 32 (bitsGo 1024 n n 0).1 (bitsGo 1024 n n 0).1 (bitsGo 1024 n n 0).2).1
    (bitsGo 32 (bitsGo 1024 n n 0).1 (bitsGo 1024 n n 0).1 (bitsGo 1024 n n 0).2).1
    (bitsGo 32 (bitsGo 1024 n n 0).1 (bitsGo 1024 n n 0).1 (bitsGo 1024 n n 0).2).2 (le_refl _)
  have hne := c4 (b4 (a4 hn))
  show 2 ^ (bitsGo 1 _ _ _).2 ≤ n ∧ n < 2 ^ ((bitsGo 1 _ _ _).2 + 1)
  generalize (bitsGo 1 (bitsGo 32 (bitsGo 1024 n n 0).1 (bitsGo 1024 n n 0).1 (bitsGo 1024 n n 0).2).1
    (bitsGo 32 (bitsGo 1024 n n 0).1 (bitsGo 1024 n n 0).1 (bitsGo 1024 n n 0).2).1
    (bitsGo 32 (bitsGo 1024 n n 0).1 (bitsGo 1024 n n 0).1 (bitsGo 1024 n n 0).2).2) = s3 at *
  generalize (bitsGo 32 (bitsGo 1024 n n 0).1 (bitsGo 1024 n n 0).1 (bitsGo 1024 n n 0).2) = s2 at *
  generalize (bitsGo 1024 n n 0) = s1 at *
  have e3 : s3.1 = n >>> s3.2 := by
    rw [c1, b1, a1, ← Nat.shiftRight_add, ← Nat.shiftRight_add]
    congr 1
    omega
  have hone : s3.1 = 1 := by
    have : s3.1 / 2 = 0 := by simpa [Nat.shiftRight_eq_div_pow] using c3
    omega
  rw [hone, Nat.shiftRight_eq_div_pow] at e3
  have hpos : 0 < 2 ^ s3.2 := by positivity
  constructor
  · by_contra hc
    have : n / 2 ^ s3.2 = 0 := Nat.div_eq_of_lt (by omega)
    omega
  · by_contra hc
    have : 2 ≤ n / 2 ^ s3.2 := by
      rw [Nat.le_div_iff_mul_le hpos]
      rw [pow_succ] at hc
      omega
    omega

theorem ilog2_unique (n e : Nat) (h1 : 2 ^ e ≤ n) (h2 : n < 2 ^ (e + 1)) : ilog2 n = e := by
  have hn : n ≠ 0 := by
    have : 0 < 2 ^ e := by positivity
    omega
  obtain ⟨s1, s2⟩ := ilog2_spec n hn
  have a : ilog2 n < e + 1 :=
    (Nat.pow_lt_pow_iff_right (by norm_num : 1 < 2)).mp (lt_of_le_of_lt s1 h2)
  have b : e < ilog2 n + 1 :=
    (Nat.pow_lt_pow_iff_right (by norm_num : 1 < 2)).mp (lt_of_le_of_lt h1 s2)
  omega

theorem ilog2_mul_pow (x u : Nat) (hx : x ≠ 0) : ilog2 (x * 2 ^ u) = ilog2 x + u := by
  obtain ⟨l1, l2⟩ := ilog2_spec x hx
  apply ilog2_unique
  · rw [pow_add]
    exact Nat.mul_le_mul_right _ l1
  · have : 2 ^ (ilog2 x + u + 1) = 2 ^ (ilog2 x + 1) * 2 ^ u := by
      rw [← pow_add]
      congr 1
      omega
    rw [this]
    exact Nat.mul_lt_mul_of_pos_right l2 (by positivity)

theorem roundHalfEven_mul (m d : Nat) (hd : 0 < d) : roundHalfEven (m * d) d = m := by
  simp [roundHalfEven, Nat.mul_div_cancel _ hd, hd]

/-- The value `roundHalfEven n d` is an integer nearest to `n / d`: it is off
by at most one half; and when it is off by exactly one half it is even. -/
theorem roundHalfEven_nearest (n d : Nat) (hd : 0 < d) :
    2 * (roundHalfEven n d * d) ≤ 2 * n + d ∧ 2 * n ≤ 2 * (roundHalfEven n d * d) + d ∧
      ((2 * (roundHalfEven n d * d) = 2 * n + d ∨ 2 * n = 2 * (roundHalfEven n d * d) + d) →
        roundHalfEven n d % 2 = 0) := by
  have hdiv : d * (n / d) + n % d = n := Nat.div_add_mod n d
  have hmod : n % d < d := Nat.mod_lt n hd
  have hm : n / d * d = d * (n / d) := Nat.mul_comm _ _
  have hm1 : (n / d + 1) * d = d * (n / d) + d := by rw [Nat.add_mul, Nat.one_mul, hm]
  unfold roundHalfEven
  simp only
  split
  · rw [hm]
    refine ⟨by omega, by omega, fun h => ?_⟩
    omega
  · split
    · rw [hm1]
      refine ⟨by omega, by omega, fun h => ?_⟩
      omega
    · split
      · rename_i heven
        rw [hm]
        exact ⟨by omega, by omega, fun _ => heven⟩
      · rename_i hodd
        rw [hm1]
        refine ⟨by omega, by omega, fun _ => ?_⟩
        omega

theorem round_scaled_exact (x u : Nat) (hx : x < 2 ^ 53) :
    roundHalfEven (x * 2 ^ u) (1 <<< (ilog2 (x * 2 ^ u / 1) + 1 - 53)) <<<
      (ilog2 (x * 2 ^ u / 1) + 1 - 53) = x * 2 ^ u := by
  by_cases h0 : x = 0
  · subst h0
    simp [roundHalfEven]
  obtain ⟨l1, _⟩ := ilog2_spec x h0
  have hL : ilog2 x < 53 :=
    (Nat.pow_lt_pow_iff_right (by norm_num : 1 < 2)).mp (lt_of_le_of_lt l1 hx)
  rw [Nat.div_one, ilog2_mul_pow x u h0]
  generalize hs : ilog2 x + u + 1 - 53 = s
  have hsu : s ≤ u := by omega
  have hsplit : x * 2 ^ u = (x * 2 ^ (u - s)) * 2 ^ s := by
    rw [Nat.mul_assoc, ← pow_add, Nat.sub_add_cancel hsu]
  rw [Nat.one_shiftLeft, Nat.shiftLeft_eq]
  conv_lhs => rw [hsplit]
  rw [roundHalfEven_mul _ _ (by positivity)]
  exact hsplit.symm

theorem Double.one_eq : Double.one = 2 ^ Double.unitExponent :=
  Nat.one_shiftLeft _

theorem Double.overflowBound_eq :
    Double.overflowBound = 2 ^ Double.unitExponent * 2 ^ Double.overflowExponent := by
  rw [← pow_add]
  exact Nat.one_shiftLeft _

theorem Double.one_pos : (0 : ℚ) < ((Double.one : ℕ) : ℚ) := by
  rw [Double.one_eq]
  positivity

/-- Integers of magnitude below `2 ^ 53` convert to `double` without rounding. -/
theorem Double.ofInt_exact (z : Int) (hz : z.natAbs < 2 ^ 53) :
    Double.ofInt z = Double.fin (z * (Double.one : Int)) := by
  have hpos : (0 : Int) < ((Double.one : Nat) : Int) := by
    rw [Double.one_eq]
    positivity
  have habs : (z * (Double.one : Int)).natAbs = z.natAbs * 2 ^ Double.unitExponent := by
    rw [Int.natAbs_mul, Int.natAbs_ofNat, Double.one_eq]
  have hbound : ¬ Double.overflowBound ≤ z.natAbs * 2 ^ Double.unitExponent := by
    rw [Double.overflowBound_eq, not_le, Nat.mul_comm (2 ^ Double.unitExponent)]
    have h1 : z.natAbs < 2 ^ Double.overflowExponent :=
      lt_of_lt_of_le hz (Nat.pow_le_pow_right (by norm_num) (by decide))
    exact Nat.mul_lt_mul_of_pos_right h1 (by positivity)
  unfold Double.ofInt Double.roundRatio
  simp only [habs, round_scaled_exact _ _ hz, hbound, if_false]
  congr 1
  by_cases hneg : z < 0
  · have h1 : z * (Double.one : Int) < 0 := Int.mul_neg_of_neg_of_pos hneg hpos
    rw [if_pos h1, ← Double.one_eq]
    push_cast
    rw [abs_of_neg hneg]
    ring
  · have h1 : ¬ z * (Double.one : Int) < 0 :=
      not_lt.mpr (Int.mul_nonneg (not_lt.mp hneg) (le_of_lt hpos))
    rw [if_neg h1, ← Double.one_eq]
    push_cast
    rw [abs_of_nonneg (not_lt.mp hneg)]

/-- The value of a converted integer of magnitude below `2 ^ 53` is that
integer. -/
theorem Double.toRat_ofInt (z : Int) (hz : z.natAbs < 2 ^ 53) :
    (Double.ofInt z).toRat = some (z : ℚ) := by
  rw [Double.ofInt_exact z hz]
  have := Double.one_pos
  simp only [Double.toRat, Option.some.injEq]
  push_cast
  field_simp

/-! ## Lemmas on doubles -/

theorem Double.lt_eq_false_of_le (a b : Double) (h : Double.le a b = true) :
    Double.lt b a = false := by
  cases a <;> cases b <;> simp_all [Double.le, Double.lt]
  case inf.inf s t => cases s <;> cases t <;> simp_all

/-! ## Lemmas on machine integers -/

theorem wrapInt_of_fits (z : Int) (h1 : INT_MIN ≤ z) (h2 : z ≤ INT_MAX) : wrapInt z = z := by
  unfold wrapInt
  unfold INT_MIN at h1
  unfold INT_MAX at h2
  omega

theorem wrapInt_range (z : Int) : INT_MIN ≤ wrapInt z ∧ wrapInt z ≤ INT_MAX := by
  unfold wrapInt INT_MIN INT_MAX
  omega

/-! ## Lemmas on the cart lines -/

theorem addToLines_products (items : List CartItem) (product : ProductId) (quantity : Int) :
    (ShoppingCart.addToLines items product quantity).map CartItem.product =
      if product ∈ items.map CartItem.product then items.map CartItem.product
      else items.map CartItem.product ++ [product] := by
  induction items with
  | nil => simp [ShoppingCart.addToLines]
  | cons item rest ih =>
    by_cases h : item.product = product
    · simp [ShoppingCart.addToLines, h]
    · have h2 : ¬ product = item.product := fun e => h e.symm
      simp only [ShoppingCart.addToLines, h, if_false, List.map_cons, ih, List.mem_cons, h2,
        false_or]
      split <;> simp

theorem addToLines_nodup (items : List CartItem) (product : ProductId) (quantity : Int)
    (h : (items.map CartItem.product).Nodup) :
    ((ShoppingCart.addToLines items product quantity).map CartItem.product).Nodup := by
  rw [addToLines_products]
  split
  · exact h
  · rename_i hn
    exact List.Nodup.append h (List.nodup_singleton _) (by simpa using hn)

theorem reachable_nodup (cart : ShoppingCart) (h : ShoppingCart.Reachable cart) :
    (cart.items.map CartItem.product).Nodup := by
  induction h with
  | empty => simp
  | step store now cart product quantity _ ih =>
    unfold ShoppingCart.addItem
    split
    · exact ih
    · split
      · exact ih
      · split
        · exact ih
        · exact addToLines_nodup _ _ _ ih

theorem addToLines_of_not_mem (items : List CartItem) (product : ProductId) (quantity : Int)
    (h : product ∉ items.map CartItem.product) :
    ShoppingCart.addToLines items product quantity = items ++ [⟨product, quantity⟩] := by
  induction items with
  | nil => simp [ShoppingCart.addToLines]
  | cons item rest ih =>
    simp only [List.map_cons, List.mem_cons, not_or] at h
    have h1 : ¬ item.product = product := fun e => h.1 e.symm
    simp [ShoppingCart.addToLines, h1, ih h.2]

theorem addToLines_of_mem (items : List CartItem) (product : ProductId) (quantity : Int)
    (hnd : (items.map CartItem.product).Nodup) (h : product ∈ items.map CartItem.product) :
    ShoppingCart.addToLines items product quantity =
      items.map (fun item =>
        if item.product = product then
          { item with quantity := wrapInt (item.quantity + quantity) }
        else item) := by
  induction items with
  | nil => simp at h
  | cons item rest ih =>
    simp only [List.map_cons, List.nodup_cons] at hnd
    by_cases h1 : item.product = product
    · have hrest : ∀ x ∈ rest, ¬ x.product = product := by
        intro x hx e
        apply hnd.1
        rw [h1, ← e]
        exact List.mem_map_of_mem _ hx
      have : rest.map (fun item =>
          if item.product = product then
            { item with quantity := wrapInt (item.quantity + quantity) }
          else item) = rest := by
        conv_rhs => rw [← List.map_id rest]
        apply List.map_congr_left
        intro x hx
        simp [hrest x hx]
      simp [ShoppingCart.addToLines, h1, this]
    · have h2 : product ∈ rest.map CartItem.product := by
        simp only [List.map_cons, List.mem_cons] at h
        rcases h with h | h
        · exact absurd h.symm h1
        · exact h
      simp [ShoppingCart.addToLines, h1, ih hnd.2 h2]

theorem addItem_cart_of_ok (store : Store) (now : Int) (cart : ShoppingCart)
    (product : ProductId) (quantity : Int)
    (hok : (ShoppingCart.addItem store now cart product quantity).error = none) :
    0 < quantity ∧
      (ShoppingCart.addItem store now cart product quantity).cart =
        ⟨ShoppingCart.addToLines cart.items product quantity⟩ := by
  by_cases h1 : quantity ≤ 0
  · simp [ShoppingCart.addItem, h1] at hok
  · by_cases h2 : (!(store product).isAvailable quantity) = true
    · simp [ShoppingCart.addItem, h1, h2] at hok
    · by_cases h3 : (store product).isExpired now = true
      · simp [ShoppingCart.addItem, h1, h2, h3] at hok
      · refine ⟨by omega, ?_⟩
        simp only [ShoppingCart.addItem, h1, h2, h3, if_false]
        simp

theorem addItem_cart_of_error (store : Store) (now : Int) (cart : ShoppingCart)
    (product : ProductId) (quantity : Int)
    (herr : (ShoppingCart.addItem store now cart product quantity).error ≠ none) :
    (ShoppingCart.addItem store now cart product quantity).cart = cart := by
  unfold ShoppingCart.addItem at herr ⊢
  split
  · rfl
  · split
    · rfl
    · split
      · rfl
      · simp [*] at herr

/-! ## Lemmas on the stock reduction -/

theorem reduceStock_cons (store : Store) (item : CartItem) (rest : List CartItem) :
    reduceStock store (item :: rest) =
      reduceStock (store.set item.product ((store item.product).reduceQuantity item.quantity))
        rest := rfl

theorem reduceStock_of_not_mem (items : List CartItem) (store : Store) (id : ProductId)
    (h : ∀ item ∈ items, item.product ≠ id) : reduceStock store items id = store id := by
  induction items generalizing store with
  | nil => rfl
  | cons item rest ih =>
    rw [reduceStock_cons, ih _ (fun x hx => h x (List.mem_cons_of_mem _ hx))]
    have : ¬ id = item.product := fun e => h item (List.mem_cons_self _ _) e.symm
    simp [Store.set, this]

theorem reduceStock_of_mem (items : List CartItem) (store : Store) (item : CartItem)
    (hnd : (items.map CartItem.product).Nodup) (hmem : item ∈ items) :
    reduceStock store items item.product =
      (store item.product).reduceQuantity item.quantity := by
  induction items generalizing store with
  | nil => simp at hmem
  | cons x rest ih =>
    simp only [List.map_cons, List.nodup_cons] at hnd
    rw [reduceStock_cons]
    rcases List.mem_cons.mp hmem with h | h
    · subst h
      rw [reduceStock_of_not_mem]
      · simp [Store.set]
      · intro y hy e
        exact hnd.1 (e ▸ List.mem_map_of_mem _ hy)
    · have hne : ¬ item.product = x.product := by
        intro e
        exact hnd.1 (e ▸ List.mem_map_of_mem _ h)
      rw [ih _ hnd.2 h]
      simp [Store.set, hne]

/-! ## Checks of the arithmetic on well-known values -/

/-- In binary64 `0.1 + 0.2` is `0.30000000000000004`, not `0.3`; `0.1 * 30` is
`3`; `2 ^ 53 + 1` rounds back to `2 ^ 53`; `2 ^ 1023 * 2` overflows to `+inf`;
`ceil(-0.5)` is zero and `ceil(32.1)` is `33`. -/
theorem Double.arithmetic_checks :
    Double.add (Double.lit 1 10) (Double.lit 2 10) =
        Double.lit 30000000000000004 100000000000000000 ∧
      Double.add (Double.lit 1 10) (Double.lit 2 10) ≠ Double.lit 3 10 ∧
      Double.mul (Double.lit 1 10) (Double.ofInt 30) = Double.ofInt 3 ∧
      Double.add (Double.ofInt 9007199254740992) (Double.ofInt 1) =
        Double.ofInt 9007199254740992 ∧
      Double.mul (Double.ofInt ((1 <<< 1023 : Nat) : Int)) (Double.ofInt 2) =
        Double.inf false ∧
      Double.ceil (Double.lit (-5) 10) = Double.zero ∧
      Double.ceil (Double.lit 321 10) = Double.ofInt 33 ∧
      Double.sub (Double.ofInt 1000) (Double.ofInt 408) = Double.ofInt 592 := by
  decide

/-! ## The shippable handles of a cart -/

theorem getShippableItems_foldl (store : Store) (items : List CartItem)
    (acc : List (Option Shippable)) :
    items.foldl
        (fun result item =>
          if (store item.product).requiresShipping then
            result ++ List.replicate item.quantity.toNat
              (dynamicCastShippable (store item.product))
          else result)
        acc =
      acc ++ items.flatMap (fun item =>
        if (store item.product).requiresShipping then
          List.replicate item.quantity.toNat (dynamicCastShippable (store item.product))
        else []) := by
  induction items generalizing acc with
  | nil => simp
  | cons item rest ih =>
    rw [List.foldl_cons, ih, List.flatMap_cons]
    split <;> simp

theorem getShippableItems_eq_flatMap (store : Store) (cart : ShoppingCart) :
    cart.getShippableItems store =
      cart.items.flatMap (fun item =>
        if (store item.product).requiresShipping then
          List.replicate item.quantity.toNat (dynamicCastShippable (store item.product))
        else []) := by
  unfold ShoppingCart.getShippableItems
  rw [getShippableItems_foldl]
  simp

theorem totalWeight_isSome (items : List (Option Shippable)) (acc : Double)
    (h : ∀ x ∈ items, x ≠ none) :
    (ShippingService.totalWeight acc items).isSome = true := by
  induction items generalizing acc with
  | nil => rfl
  | cons x rest ih =>
    cases x with
    | none => exact absurd rfl (h none (List.mem_cons_self _ _))
    | some item =>
      simp only [ShippingService.totalWeight]
      exact ih _ (fun y hy => h y (List.mem_cons_of_mem _ hy))

/-- The fee of a cart is defined as soon as no line is about an object of the
bare base class `Product` (the one class whose instances require shipping
without being `Shippable`). -/
theorem calculateFee_isSome (store : Store) (cart : ShoppingCart)
    (h : ∀ item ∈ cart.items, (store item.product).kind ≠ .base) :
    (ShippingService.calculateFee (cart.getShippableItems store)).isSome = true := by
  have hall : ∀ x ∈ cart.getShippableItems store, x ≠ none := by
    rw [getShippableItems_eq_flatMap]
    intro x hx
    rw [List.mem_flatMap] at hx
    obtain ⟨item, hitem, hx⟩ := hx
    have hk := h item hitem
    split at hx
    · rename_i hreq
      have := (List.mem_replicate.mp hx).2
      subst this
      unfold dynamicCastShippable
      unfold Product.requiresShipping at hreq
      split
      · simp
      · rename_i hnot
        split at hreq
        · simp at hreq
        · rename_i hnd
          cases hkind : (store item.product).kind with
          | base => exact absurd hkind hk
          | digital => exact absurd hkind hnd
          | physical w e => exact absurd hkind (hnot w e)
    · simp at hx
  have := totalWeight_isSome _ Double.zero hall
  unfold ShippingService.calculateFee
  split
  · rename_i hnone
    rw [hnone] at this
    simp at this
  · rfl

/-! ## Theorems on checkout -/

/-- C1, amended. A reachable, non-empty cart with no line about an object of
the bare base class `Product`, checked out by a customer whose balance is at
least `subtotal + fee`: the fee is defined and the checkout settles with these
figures; every product with a line has its stock reduced by that line's
quantity, as `quantity -= q` on `int`s does it: the stock is the 32-bit
wrap-around of `stock - quantity`, which is `stock - quantity` itself whenever
that fits an `int` (and nothing else about the product changes); every
product without a line is unchanged; the balance becomes
`balance - (subtotal + fee)`, the subtraction being the one of
`balance -= amount`; and the cart is empty. -/
theorem checkout_sufficient_balance (customer : Customer) (cart : ShoppingCart)
    (store : Store)
    (hreach : ShoppingCart.Reachable cart)
    (hne : cart.isEmpty = false)
    (hkind : ∀ item ∈ cart.items, (store item.product).kind ≠ .base)
    (hbal : ∀ fee, ShippingService.calculateFee (cart.getShippableItems store) = some fee →
      Double.le (Double.add (cart.getSubtotal store) fee) customer.balance = true) :
    ∃ fee, ShippingService.calculateFee (cart.getShippableItems store) = some fee ∧
      (checkout customer cart store).outcome =
        .settled (cart.getSubtotal store) fee (Double.add (cart.getSubtotal store) fee)
          (Double.sub customer.balance (Double.add (cart.getSubtotal store) fee)) ∧
      (∀ item ∈ cart.items,
        ((checkout customer cart store).store item.product).quantity =
            wrapInt ((store item.product).quantity - item.quantity) ∧
          (INT_MIN ≤ (store item.product).quantity - item.quantity →
            (store item.product).quantity - item.quantity ≤ INT_MAX →
            ((checkout customer cart store).store item.product).quantity =
              (store item.product).quantity - item.quantity) ∧
          (checkout customer cart store).store item.product =
            { store item.product with
              quantity := wrapInt ((store item.product).quantity - item.quantity) }) ∧
      (∀ id : ProductId, (∀ item ∈ cart.items, item.product ≠ id) →
        (checkout customer cart store).store id = store id) ∧
      (checkout customer cart store).customer.balance =
        Double.sub customer.balance (Double.add (cart.getSubtotal store) fee) ∧
      (checkout customer cart store).customer.name = customer.name ∧
      (checkout customer cart store).cart = ⟨[]⟩ := by
  obtain ⟨fee, hfee⟩ := Option.isSome_iff_exists.mp (calculateFee_isSome store cart hkind)
  have hlt := Double.lt_eq_false_of_le _ _ (hbal fee hfee)
  have hnd := reachable_nodup cart hreach
  have hco : checkout customer cart store =
      ⟨.settled (cart.getSubtotal store) fee (Double.add (cart.getSubtotal store) fee)
          (Double.sub customer.balance (Double.add (cart.getSubtotal store) fee)),
        { customer with
          balance := Double.sub customer.balance (Double.add (cart.getSubtotal store) fee) },
        ⟨[]⟩, reduceStock store cart.items⟩ := by
    simp [checkout, hne, hfee, Customer.deduct, hlt, Customer.getBalance,
      ShoppingCart.clear, ShoppingCart.getItems]
  rw [hco]
  refine ⟨fee, hfee, rfl, ?_, ?_, rfl, rfl, rfl⟩
  · intro item hitem
    have h := reduceStock_of_mem cart.items store item hnd hitem
    have hq : (reduceStock store cart.items item.product).quantity =
        wrapInt ((store item.product).quantity - item.quantity) := by
      rw [h]
      rfl
    refine ⟨hq, fun h1 h2 => ?_, h⟩
    show (reduceStock store cart.items item.product).quantity = _
    rw [hq]
    exact wrapInt_of_fits _ h1 h2
  · intro id hid
    exact reduceStock_of_not_mem cart.items store id hid

/-- C2, amended. A non-empty cart with no line about an object of the bare
base class `Product`, checked out by a customer whose balance is less than
`subtotal + fee`: the insufficient-funds error is reported, and customer, cart
(lines, quantities, order) and every product are as before. -/
theorem checkout_insufficient_balance (customer : Customer) (cart : ShoppingCart)
    (store : Store)
    (hne : cart.isEmpty = false)
    (hkind : ∀ item ∈ cart.items, (store item.product).kind ≠ .base)
    (hbal : ∀ fee, ShippingService.calculateFee (cart.getShippableItems store) = some fee →
      Double.lt customer.balance (Double.add (cart.getSubtotal store) fee) = true) :
    (∃ fee, ShippingService.calculateFee (cart.getShippableItems store) = some fee) ∧
      (checkout customer cart store).outcome = .paymentError insufficientFundsError ∧
      (checkout customer cart store).customer = customer ∧
      (checkout customer cart store).cart = cart ∧
      (checkout customer cart store).store = store := by
  obtain ⟨fee, hfee⟩ := Option.isSome_iff_exists.mp (calculateFee_isSome store cart hkind)
  have hlt := hbal fee hfee
  refine ⟨⟨fee, hfee⟩, ?_⟩
  simp [checkout, hne, hfee, Customer.deduct, hlt]

/-- C10. Checking out the empty cart reports the empty-cart outcome, which is
not a payment error, and leaves customer, cart and every product as they
were. -/
theorem checkout_empty_cart (customer : Customer) (store : Store) :
    (checkout customer ⟨[]⟩ store).outcome = .emptyCart ∧
      (checkout customer ⟨[]⟩ store).customer = customer ∧
      (checkout customer ⟨[]⟩ store).cart = ⟨[]⟩ ∧
      (checkout customer ⟨[]⟩ store).store = store ∧
      ∀ e : RuntimeError,
        (checkout customer ⟨[]⟩ store).outcome ≠ .paymentError e := by
  simp [checkout, ShoppingCart.isEmpty]

/-! ## Theorems on adding to the cart -/

/-- C5. A quantity that is not positive makes `addItem` throw the validation
error, whatever the product, and the cart keeps its lines. -/
theorem addItem_nonpositive_quantity (store : Store) (now : Int) (cart : ShoppingCart)
    (product : ProductId) (quantity : Int) (h : quantity ≤ 0) :
    ShoppingCart.addItem store now cart product quantity = ⟨some validationError, cart⟩ := by
  simp [ShoppingCart.addItem, h]

/-- C4, amended. A positive quantity above the stock of the product makes
`addItem` throw the out-of-stock error, and the cart keeps its lines. -/
theorem addItem_quantity_above_stock (store : Store) (now : Int) (cart : ShoppingCart)
    (product : ProductId) (quantity : Int) (hpos : 0 < quantity)
    (h : quantity > (store product).getQuantity) :
    ShoppingCart.addItem store now cart product quantity = ⟨some outOfStockError, cart⟩ := by
  have h1 : ¬ quantity ≤ 0 := not_le.mpr hpos
  have h2 : ¬ quantity ≤ (store product).quantity := not_le.mpr h
  simp [ShoppingCart.addItem, h1, Product.isAvailable, h2]

/-- C6, amended. For a physical product whose expiration is set (non-zero) and
lies before `now`, and a positive quantity, `addItem` throws and the cart keeps
its lines: the exception is the expired error when the quantity does not
exceed the stock, and the out-of-stock error when it does. -/
theorem addItem_expired_product (store : Store) (now : Int) (cart : ShoppingCart)
    (product : ProductId) (quantity : Int) (weight : Double) (expiration : Int)
    (hkind : (store product).kind = .physical weight expiration)
    (hset : expiration ≠ 0) (hpast : expiration < now) (hpos : 0 < quantity) :
    (ShoppingCart.addItem store now cart product quantity).cart = cart ∧
      (ShoppingCart.addItem store now cart product quantity).error =
        some (if quantity ≤ (store product).getQuantity then expiredError
              else outOfStockError) := by
  have h1 : ¬ quantity ≤ 0 := not_le.mpr hpos
  by_cases h2 : quantity ≤ (store product).quantity
  · simp [ShoppingCart.addItem, h1, Product.isAvailable, h2, Product.isExpired, hkind, hset,
      hpast, Product.getQuantity]
  · simp [ShoppingCart.addItem, h1, Product.isAvailable, h2, Product.getQuantity]

/-- C7, amended. The lines of a reachable cart are about pairwise distinct
products; and when `addItem` succeeds on such a cart, the lines are still
distinct, and either the product had a line, in which case the lines are the
old ones, in the old order, the other lines as they were and the line of the
product with the `int` sum of its quantity and `quantity`, which is the plain
sum whenever that fits an `int` and its 32-bit wrap-around otherwise, or the
product had no line, in which case exactly one line `(product, quantity)` is
appended at the end. -/
theorem addItem_one_line_per_product (store : Store) (now : Int) (cart : ShoppingCart)
    (product : ProductId) (quantity : Int) (hreach : ShoppingCart.Reachable cart) :
    (cart.items.map CartItem.product).Nodup ∧
      ((ShoppingCart.addItem store now cart product quantity).error = none →
        ((ShoppingCart.addItem store now cart product quantity).cart.items.map
            CartItem.product).Nodup ∧
        (product ∈ cart.items.map CartItem.product →
          (ShoppingCart.addItem store now cart product quantity).cart.items.length =
              cart.items.length ∧
            (ShoppingCart.addItem store now cart product quantity).cart.items =
              cart.items.map (fun item =>
                if item.product = product then
                  { item with quantity := wrapInt (item.quantity + quantity) }
                else item) ∧
            ((∀ item ∈ cart.items, item.product = product →
                INT_MIN ≤ item.quantity + quantity ∧ item.quantity + quantity ≤ INT_MAX) →
              (ShoppingCart.addItem store now cart product quantity).cart.items =
                cart.items.map (fun item =>
                  if item.product = product then
                    { item with quantity := item.quantity + quantity }
                  else item))) ∧
        (product ∉ cart.items.map CartItem.product →
          (ShoppingCart.addItem store now cart product quantity).cart.items =
            cart.items ++ [⟨product, quantity⟩])) := by
  have hnd := reachable_nodup cart hreach
  refine ⟨hnd, fun hok => ?_⟩
  have hcart : (ShoppingCart.addItem store now cart product quantity).cart.items =
      ShoppingCart.addToLines cart.items product quantity := by
    rw [(addItem_cart_of_ok store now cart product quantity hok).2]
  rw [hcart]
  refine ⟨addToLines_nodup _ _ _ hnd, fun hmem => ?_, fun hmem => ?_⟩
  · rw [addToLines_of_mem _ _ _ hnd hmem]
    refine ⟨by simp, rfl, fun hfit => ?_⟩
    apply List.map_congr_left
    intro item hitem
    by_cases hp : item.product = product
    · obtain ⟨h1, h2⟩ := hfit item hitem hp
      simp only [hp, if_true]
      rw [wrapInt_of_fits _ h1 h2]
    · simp only [hp, if_false]
  · exact addToLines_of_not_mem _ _ _ hmem

/-! ## The shipping fee -/

theorem demoCart_items (now : Int) : demoCart now = ⟨[⟨0, 2⟩, ⟨1, 1⟩, ⟨3, 1⟩]⟩ := by
  simp [demoCart, ShoppingCart.addItem, demoStore, Product.isAvailable, Product.isExpired,
    ShoppingCart.addToLines]

/-- C9. The run of `main`, whatever the time it starts at: the three
`addItem` calls succeed and leave the lines (cheese, 2), (biscuits, 1),
(card, 1); the checkout settles with subtotal 375, shipping fee 33, total 408
and remaining balance 592; the stocks of cheese, biscuits and card become 8, 4
and 19, those of the two other products stay 3 and 2; and the cart ends
empty. -/
theorem demo_figures (now : Int) :
    (ShoppingCart.addItem (demoStore now) now ⟨[]⟩ 0 2).error = none ∧
      (ShoppingCart.addItem (demoStore now) now ⟨[⟨0, 2⟩]⟩ 1 1).error = none ∧
      (ShoppingCart.addItem (demoStore now) now ⟨[⟨0, 2⟩, ⟨1, 1⟩]⟩ 3 1).error = none ∧
      demoCart now = ⟨[⟨0, 2⟩, ⟨1, 1⟩, ⟨3, 1⟩]⟩ ∧
      (demoRun now).outcome =
        .settled (Double.ofInt 375) (Double.ofInt 33) (Double.ofInt 408) (Double.ofInt 592) ∧
      (demoRun now).customer.balance = Double.ofInt 592 ∧
      ((demoRun now).store 0).quantity = 8 ∧
      ((demoRun now).store 1).quantity = 4 ∧
      ((demoRun now).store 3).quantity = 19 ∧
      ((demoRun now).store 2).quantity = 3 ∧
      ((demoRun now).store 4).quantity = 2 ∧
      (demoRun now).cart = ⟨[]⟩ := by
  refine ⟨?_, ?_, ?_, demoCart_items now, ?_⟩
  · simp [ShoppingCart.addItem, demoStore, Product.isAvailable, Product.isExpired]
  · simp [ShoppingCart.addItem, demoStore, Product.isAvailable, Product.isExpired]
  · simp [ShoppingCart.addItem, demoStore, Product.isAvailable, Product.isExpired]
  · unfold demoRun
    rw [demoCart_items]
    exact of_decide_eq_true (Eq.refl true)

/-! ## Overselling -/

/-- C3, at the failing input. A product with one unit in stock is added twice,
one unit each time; both calls succeed and merge into one line of quantity 2;
the checkout settles and leaves the stock at `-1`. -/
theorem oversold_stock_negative :
    (oversoldStore 0).quantity = 1 ∧
      (ShoppingCart.addItem oversoldStore 0 ⟨[]⟩ 0 1).error = none ∧
      (ShoppingCart.addItem oversoldStore 0 ⟨[⟨0, 1⟩]⟩ 0 1).error = none ∧
      oversoldCart = ⟨[⟨0, 2⟩]⟩ ∧
      oversoldRun.outcome =
        .settled (Double.ofInt 50) Double.zero (Double.ofInt 50) (Double.ofInt 950) ∧
      (oversoldRun.store 0).quantity = -1 := by
  decide

/-! ## Counterexamples -/

/-- C4 as stated fails: after the oversold checkout the stock is `-1`; the
requested quantity `0` is greater than the stock, and `addItem` throws the
validation error, which is not the out-of-stock error. -/
theorem addItem_above_stock_counterexample :
    (oversoldRun.store 0).getQuantity = -1 ∧
      (0 : Int) > (oversoldRun.store 0).getQuantity ∧
      ShoppingCart.addItem oversoldRun.store 0 ⟨[]⟩ 0 0 = ⟨some validationError, ⟨[]⟩⟩ ∧
      (ShoppingCart.addItem oversoldRun.store 0 ⟨[]⟩ 0 0).error ≠ some outOfStockError := by
  decide

/-- C6 as stated fails: the expired cheese of `main` (two in stock, expired ten
days before `now = 1000000`) requested three times makes `addItem` throw the
out-of-stock error, not the expired error. -/
theorem addItem_expired_counterexample :
    (demoStore 1000000 4).kind = .physical (Double.lit 2 10) 136000 ∧
      (136000 : Int) ≠ 0 ∧ (136000 : Int) < 1000000 ∧
      (demoStore 1000000 4).isExpired 1000000 = true ∧
      (demoStore 1000000 4).getQuantity = 2 ∧
      ShoppingCart.addItem (demoStore 1000000) 1000000 ⟨[]⟩ 4 3 =
        ⟨some outOfStockError, ⟨[]⟩⟩ ∧
      (ShoppingCart.addItem (demoStore 1000000) 1000000 ⟨[]⟩ 4 3).error ≠
        some expiredError := by
  decide

/-- C1 as stated fails. A cart with one unit of a product of the base class
`Product` is accepted by `addItem`; the balance 1000 covers the subtotal 10;
the fee is not defined (the cast to `Shippable` is null) and `checkout` does
not settle: nothing is paid and the cart keeps its line. And a stock can leave
the range of `int`: three carts of `INT_MAX` free cards are filled while the
stock is `INT_MAX`; after two of them are checked out the stock is `-INT_MAX`,
and the checkout of the third, which settles, leaves the stock at 2, not at
`-INT_MAX - INT_MAX`. -/
theorem checkout_sufficient_balance_counterexample :
    ShoppingCart.Reachable bareCart ∧
      (ShoppingCart.addItem bareStore 0 ⟨[]⟩ 0 1).error = none ∧
      bareCart = ⟨[⟨0, 1⟩]⟩ ∧
      bareCart.isEmpty = false ∧
      bareCart.getSubtotal bareStore = Double.ofInt 10 ∧
      Double.le (bareCart.getSubtotal bareStore) demoCustomer.balance = true ∧
      ShippingService.calculateFee (bareCart.getShippableItems bareStore) = none ∧
      (checkout demoCustomer bareCart bareStore).outcome = .nullDereference ∧
      (checkout demoCustomer bareCart bareStore).cart = bareCart ∧
      (checkout demoCustomer bareCart bareStore).customer = demoCustomer ∧
      ShoppingCart.Reachable fullCart ∧
      (ShoppingCart.addItem fullStore 0 ⟨[]⟩ 0 INT_MAX).error = none ∧
      fullCart = ⟨[⟨0, 2147483647⟩]⟩ ∧
      (fullStore 0).quantity = 2147483647 ∧
      (fullStore1 0).quantity = 0 ∧
      (fullStore2 0).quantity = -2147483647 ∧
      (checkout demoCustomer fullCart fullStore2).outcome =
        .settled Double.zero Double.zero Double.zero (Double.ofInt 1000) ∧
      ((checkout demoCustomer fullCart fullStore2).store 0).quantity = 2 ∧
      (fullStore2 0).quantity - 2147483647 = -4294967294 :=
  ⟨ShoppingCart.Reachable.step _ _ _ _ _ ShoppingCart.Reachable.empty,
    by decide, by decide, by decide, by decide, by decide, by decide, by decide, by decide,
    by decide,
    ShoppingCart.Reachable.step _ _ _ _ _ ShoppingCart.Reachable.empty,
    by decide, by decide, by decide, by decide, by decide, by decide, by decide, by decide⟩

/-- C2 as stated fails. The cart with one unit of a product of the base class
`Product` (subtotal 10), checked out with a balance of 1: the fee is not
defined and `checkout` does not report the insufficient-funds error. -/
theorem checkout_insufficient_balance_counterexample :
    (ShoppingCart.addItem bareStore 0 ⟨[]⟩ 0 1).error = none ∧
      bareCart = ⟨[⟨0, 1⟩]⟩ ∧
      bareCart.isEmpty = false ∧
      bareCart.getSubtotal bareStore = Double.ofInt 10 ∧
      Double.lt (Double.ofInt 1) (bareCart.getSubtotal bareStore) = true ∧
      ShippingService.calculateFee (bareCart.getShippableItems bareStore) = none ∧
      (checkout ⟨"أحمد", Double.ofInt 1⟩ bareCart bareStore).outcome = .nullDereference ∧
      (checkout ⟨"أحمد", Double.ofInt 1⟩ bareCart bareStore).outcome ≠
        .paymentError insufficientFundsError := by
  decide

/-- C7 as stated fails. The cart holds `INT_MAX` cards (the stock is
`INT_MAX`); `addItem(&card, INT_MAX)` succeeds again and the line holds `-2`,
not the sum of the two quantities. -/
theorem addItem_one_line_per_product_counterexample :
    ShoppingCart.Reachable fullCart ∧
      fullCart = ⟨[⟨0, 2147483647⟩]⟩ ∧
      (fullStore 0).getQuantity = 2147483647 ∧
      (ShoppingCart.addItem fullStore 0 fullCart 0 2147483647).error = none ∧
      (ShoppingCart.addItem fullStore 0 fullCart 0 2147483647).cart = ⟨[⟨0, -2⟩]⟩ ∧
      (-2 : Int) ≠ 2147483647 + 2147483647 :=
  ⟨ShoppingCart.Reachable.step _ _ _ _ _ ShoppingCart.Reachable.empty,
    by decide, by decide, by decide, by decide, by decide⟩

/-! ## Instances of the theorems with hypotheses -/

/-- The checkout of `main` at time 0: a reachable cart of physical and digital
products, fee 33, balance 1000; the stock of the cheese goes from 10 to 8. -/
theorem checkout_sufficient_balance_witness :
    ShoppingCart.Reachable (demoCart 0) ∧
      (demoCart 0).isEmpty = false ∧
      (∀ item ∈ (demoCart 0).items, (demoStore 0 item.product).kind ≠ .base) ∧
      (∀ fee,
        ShippingService.calculateFee ((demoCart 0).getShippableItems (demoStore 0)) =
          some fee →
        Double.le (Double.add ((demoCart 0).getSubtotal (demoStore 0)) fee)
          demoCustomer.balance = true) ∧
      (∃ fee,
        ShippingService.calculateFee ((demoCart 0).getShippableItems (demoStore 0)) =
          some fee ∧
        (checkout demoCustomer (demoCart 0) (demoStore 0)).outcome =
          .settled ((demoCart 0).getSubtotal (demoStore 0)) fee
            (Double.add ((demoCart 0).getSubtotal (demoStore 0)) fee)
            (Double.sub demoCustomer.balance
              (Double.add ((demoCart 0).getSubtotal (demoStore 0)) fee))) ∧
      ((checkout demoCustomer (demoCart 0) (demoStore 0)).store 0).quantity =
        (demoStore 0 0).quantity - 2 ∧
      (checkout demoCustomer (demoCart 0) (demoStore 0)).cart = ⟨[]⟩ := by
  have hreach : ShoppingCart.Reachable (demoCart 0) :=
    ShoppingCart.Reachable.step _ _ _ _ _
      (ShoppingCart.Reachable.step _ _ _ _ _
        (ShoppingCart.Reachable.step _ _ _ _ _ ShoppingCart.Reachable.empty))
  have hfee : ShippingService.calculateFee ((demoCart 0).getShippableItems (demoStore 0)) =
      some (Double.ofInt 33) := by decide
  have hbal : ∀ fee,
      ShippingService.calculateFee ((demoCart 0).getShippableItems (demoStore 0)) =
        some fee →
      Double.le (Double.add ((demoCart 0).getSubtotal (demoStore 0)) fee)
        demoCustomer.balance = true := by
    intro fee hf
    rw [hfee, Option.some.injEq] at hf
    subst hf
    decide
  obtain ⟨fee, hf, hout, hstock, _, _, _, hcart⟩ :=
    checkout_sufficient_balance demoCustomer (demoCart 0) (demoStore 0) hreach (by decide)
      (by decide) hbal
  exact ⟨hreach, by decide, by decide, hbal, ⟨fee, hf, hout⟩,
    (hstock ⟨0, 2⟩ (by decide)).2.1 (by decide) (by decide), hcart⟩

/-- The cart of `main` checked out with a balance of 100, below the total 408. -/
theorem checkout_insufficient_balance_witness :
    (demoCart 0).isEmpty = false ∧
      (∀ item ∈ (demoCart 0).items, (demoStore 0 item.product).kind ≠ .base) ∧
      (∀ fee,
        ShippingService.calculateFee ((demoCart 0).getShippableItems (demoStore 0)) =
          some fee →
        Double.lt (Double.ofInt 100)
          (Double.add ((demoCart 0).getSubtotal (demoStore 0)) fee) = true) ∧
      (∃ fee,
        ShippingService.calculateFee ((demoCart 0).getShippableItems (demoStore 0)) =
          some fee) ∧
      (checkout ⟨"أحمد", Double.ofInt 100⟩ (demoCart 0) (demoStore 0)).outcome =
        .paymentError insufficientFundsError ∧
      (checkout ⟨"أحمد", Double.ofInt 100⟩ (demoCart 0) (demoStore 0)).customer =
        ⟨"أحمد", Double.ofInt 100⟩ ∧
      (checkout ⟨"أحمد", Double.ofInt 100⟩ (demoCart 0) (demoStore 0)).cart = demoCart 0 ∧
      (checkout ⟨"أحمد", Double.ofInt 100⟩ (demoCart 0) (demoStore 0)).store = demoStore 0 := by
  have hfee : ShippingService.calculateFee ((demoCart 0).getShippableItems (demoStore 0)) =
      some (Double.ofInt 33) := by decide
  have hbal : ∀ fee,
      ShippingService.calculateFee ((demoCart 0).getShippableItems (demoStore 0)) =
        some fee →
      Double.lt (Double.ofInt 100)
        (Double.add ((demoCart 0).getSubtotal (demoStore 0)) fee) = true := by
    intro fee hf
    rw [hfee, Option.some.injEq] at hf
    subst hf
    decide
  exact ⟨by decide, by decide, hbal,
    checkout_insufficient_balance ⟨"أحمد", Double.ofInt 100⟩ (demoCart 0) (demoStore 0)
      (by decide) (by decide) hbal⟩

/-- Adding `-3` units of cheese to the cart of `main`. -/
theorem addItem_nonpositive_quantity_witness :
    (-3 : Int) ≤ 0 ∧
      ShoppingCart.addItem (demoStore 0) 0 (demoCart 0) 0 (-3) =
        ⟨some validationError, demoCart 0⟩ :=
  ⟨by decide, addItem_nonpositive_quantity (demoStore 0) 0 (demoCart 0) 0 (-3) (by decide)⟩

/-- Adding 11 units of cheese (10 in stock) to the cart of `main`. -/
theorem addItem_quantity_above_stock_witness :
    (0 : Int) < 11 ∧ (11 : Int) > (demoStore 0 0).getQuantity ∧
      ShoppingCart.addItem (demoStore 0) 0 (demoCart 0) 0 11 =
        ⟨some outOfStockError, demoCart 0⟩ :=
  ⟨by decide, by decide,
    addItem_quantity_above_stock (demoStore 0) 0 (demoCart 0) 0 11 (by decide) (by decide)⟩

/-- Adding 2 units of the expired cheese (2 in stock) to the cart of `main`. -/
theorem addItem_expired_product_witness :
    (demoStore 1000000 4).kind = .physical (Double.lit 2 10) 136000 ∧
      (136000 : Int) ≠ 0 ∧ (136000 : Int) < 1000000 ∧ (0 : Int) < 2 ∧
      (ShoppingCart.addItem (demoStore 1000000) 1000000 (demoCart 0) 4 2).cart = demoCart 0 ∧
      (ShoppingCart.addItem (demoStore 1000000) 1000000 (demoCart 0) 4 2).error =
        some (if (2 : Int) ≤ (demoStore 1000000 4).getQuantity then expiredError
              else outOfStockError) ∧
      (if (2 : Int) ≤ (demoStore 1000000 4).getQuantity then expiredError
        else outOfStockError) = expiredError :=
  have h := addItem_expired_product (demoStore 1000000) 1000000 (demoCart 0) 4 2
    (Double.lit 2 10) 136000 (by decide) (by decide) (by decide) (by decide)
  ⟨by decide, by decide, by decide, by decide, h.1, h.2, by decide⟩

/-- Adding 3 more biscuits to the cart of `main`: the middle line goes from 1
to 4 and the two other lines stay. -/
theorem addItem_one_line_per_product_witness :
    ShoppingCart.Reachable (demoCart 0) ∧
      (ShoppingCart.addItem (demoStore 0) 0 (demoCart 0) 1 3).error = none ∧
      (1 : ProductId) ∈ (demoCart 0).items.map CartItem.product ∧
      (∀ item ∈ (demoCart 0).items, item.product = 1 →
        INT_MIN ≤ item.quantity + 3 ∧ item.quantity + 3 ≤ INT_MAX) ∧
      ((demoCart 0).items.map CartItem.product).Nodup ∧
      (ShoppingCart.addItem (demoStore 0) 0 (demoCart 0) 1 3).cart.items =
        (demoCart 0).items.map (fun item =>
          if item.product = 1 then { item with quantity := item.quantity + 3 } else item) ∧
      (ShoppingCart.addItem (demoStore 0) 0 (demoCart 0) 1 3).cart.items =
        [⟨0, 2⟩, ⟨1, 4⟩, ⟨3, 1⟩] :=
  have hreach : ShoppingCart.Reachable (demoCart 0) :=
    ShoppingCart.Reachable.step _ _ _ _ _
      (ShoppingCart.Reachable.step _ _ _ _ _
        (ShoppingCart.Reachable.step _ _ _ _ _ ShoppingCart.Reachable.empty))
  have h := addItem_one_line_per_product (demoStore 0) 0 (demoCart 0) 1 3 hreach
  ⟨hreach, by decide, by decide, by decide, h.1,
    ((h.2 (by decide)).2.1 (by decide)).2.2 (by decide), by decide⟩

/-! ## More lemmas on the cart lines -/

theorem addToLines_fits (items : List CartItem) (product : ProductId) (quantity : Int)
    (hq : 0 < quantity) (h : ∀ item ∈ items, 0 < item.quantity)
    (hfit : ∀ item ∈ items, item.product = product → item.quantity + quantity ≤ INT_MAX) :
    ∀ item ∈ items, item.product = product →
      wrapInt (item.quantity + quantity) = item.quantity + quantity := by
  intro item hitem e
  have h1 := h item hitem
  have h2 := hfit item hitem e
  apply wrapInt_of_fits _ _ h2
  unfold INT_MIN
  omega

theorem addToLines_pos (items : List CartItem) (product : ProductId) (quantity : Int)
    (hq : 0 < quantity) (h : ∀ item ∈ items, 0 < item.quantity)
    (hfit : ∀ item ∈ items, item.product = product → item.quantity + quantity ≤ INT_MAX) :
    ∀ item ∈ ShoppingCart.addToLines items product quantity, 0 < item.quantity := by
  induction items with
  | nil =>
    intro item hitem
    simp only [ShoppingCart.addToLines, List.mem_singleton] at hitem
    subst hitem
    exact hq
  | cons x rest ih =>
    intro item hitem
    unfold ShoppingCart.addToLines at hitem
    split at hitem
    · rcases List.mem_cons.mp hitem with e | hmem
      · subst e
        rename_i hx
        have := h x (List.mem_cons_self _ _)
        show 0 < wrapInt (x.quantity + quantity)
        rw [addToLines_fits (x :: rest) product quantity hq h hfit x
          (List.mem_cons_self _ _) hx]
        omega
      · exact h item (List.mem_cons_of_mem _ hmem)
    · rcases List.mem_cons.mp hitem with e | hmem
      · subst e
        exact h _ (List.mem_cons_self _ _)
      · exact ih (fun y hy => h y (List.mem_cons_of_mem _ hy))
          (fun y hy => hfit y (List.mem_cons_of_mem _ hy)) item hmem

theorem reachableNoOverflow_pos (cart : ShoppingCart)
    (h : ShoppingCart.ReachableNoOverflow cart) :
    ∀ item ∈ cart.items, 0 < item.quantity := by
  induction h with
  | empty => simp
  | step store now cart product quantity _ hfit ih =>
    by_cases hok : (ShoppingCart.addItem store now cart product quantity).error = none
    · obtain ⟨hq, hcart⟩ := addItem_cart_of_ok store now cart product quantity hok
      rw [hcart]
      exact addToLines_pos _ _ _ hq ih (hfit hok)
    · rw [addItem_cart_of_error store now cart product quantity hok]
      exact ih

theorem reachableNoOverflow_reachable (cart : ShoppingCart)
    (h : ShoppingCart.ReachableNoOverflow cart) : ShoppingCart.Reachable cart := by
  induction h with
  | empty => exact ShoppingCart.Reachable.empty
  | step store now cart product quantity _ _ ih =>
    exact ShoppingCart.Reachable.step store now cart product quantity ih

/-! ## Lemmas on the store after a checkout -/

theorem checkout_store (customer : Customer) (cart : ShoppingCart) (store : Store) :
    (checkout customer cart store).store = store ∨
      ((∃ subtotal shipping total remaining,
          (checkout customer cart store).outcome =
            .settled subtotal shipping total remaining) ∧
        (checkout customer cart store).store = reduceStock store cart.items) := by
  by_cases hempty : cart.isEmpty = true
  · left
    simp [checkout, hempty]
  · cases hfee : ShippingService.calculateFee (cart.getShippableItems store) with
    | none =>
      left
      simp [checkout, hempty, hfee]
    | some shipping =>
      by_cases hlt : Double.lt customer.balance
          (Double.add (cart.getSubtotal store) shipping) = true
      · left
        simp [checkout, hempty, hfee, Customer.deduct, hlt]
      · right
        simp [checkout, hempty, hfee, Customer.deduct, hlt, ShoppingCart.getItems]

/-! ## The customer's balance -/

/-- C11. `deduct(amount)` throws the insufficient-funds error exactly when
`balance < amount`, and throws nothing else; when it throws the customer is as
before; when it returns the balance is `balance - amount` (the subtraction of
`balance -= amount`) and the name is as before. -/
theorem deduct_fails_iff_balance_below (customer : Customer) (amount : Double) :
    ((customer.deduct amount).error = some insufficientFundsError ↔
        Double.lt customer.balance amount = true) ∧
      ((customer.deduct amount).error = none ↔
        Double.lt customer.balance amount = false) ∧
      ((customer.deduct amount).error ≠ none →
        (customer.deduct amount).customer = customer) ∧
      ((customer.deduct amount).error = none →
        (customer.deduct amount).customer.balance = Double.sub customer.balance amount ∧
          (customer.deduct amount).customer.name = customer.name) := by
  by_cases h : Double.lt customer.balance amount = true
  · simp [Customer.deduct, h]
  · simp [Customer.deduct, h]

/-! ## Effects of `addItem` outside the cart -/

/-- C12. A call of `addItem`, throwing or not, leaves every product as it was
(stock and price included) and the customer as well; and whenever a call
changes the stock of a product, the call is a `checkout` that settled and the
product has a line in the cart that was checked out. -/
theorem addItem_leaves_products (s : Session) :
    (∀ (now : Int) (product : ProductId) (quantity : Int),
        (s.call (.addItem now product quantity)).store = s.store ∧
          (∀ id : ProductId,
            ((s.call (.addItem now product quantity)).store id).getQuantity =
                (s.store id).getQuantity ∧
              ((s.call (.addItem now product quantity)).store id).getPrice =
                (s.store id).getPrice) ∧
          (s.call (.addItem now product quantity)).customer = s.customer) ∧
      (∀ (c : Call) (id : ProductId),
        ((s.call c).store id).getQuantity ≠ (s.store id).getQuantity →
          c = .checkout ∧
            (∃ subtotal shipping total remaining,
              (checkout s.customer s.cart s.store).outcome =
                .settled subtotal shipping total remaining) ∧
            ∃ item ∈ s.cart.items, item.product = id) := by
  refine ⟨fun now product quantity => ⟨rfl, fun id => ⟨rfl, rfl⟩, rfl⟩, ?_⟩
  intro c id hne
  cases c with
  | addItem now product quantity => exact absurd rfl hne
  | checkout =>
    refine ⟨rfl, ?_⟩
    have hstore : (s.call .checkout).store = (checkout s.customer s.cart s.store).store := rfl
    rw [hstore] at hne
    rcases checkout_store s.customer s.cart s.store with h | ⟨hset, h⟩
    · rw [h] at hne
      exact absurd rfl hne
    · refine ⟨hset, ?_⟩
      by_contra hnone
      apply hne
      rw [h, reduceStock_of_not_mem]
      intro item hitem e
      exact hnone ⟨item, hitem, e⟩

/-! ## Expiry -/

/-- C15, amended. With the current time `now`: a digital product is never
expired, nor is a product of the base class; a physical product built without
an expiration is not expired; and a physical product built with the
expiration `t` is expired exactly when `t` is not `0` and `now` is later than
`t`: the timestamp `0` is read as no expiration. -/
theorem isExpired_cases (now : Int) (n : String) (p : Double) (q : Int) (w : Double) :
    (digitalProduct n p q).isExpired now = false ∧
      Product.isExpired now ⟨n, p, q, .base⟩ = false ∧
      (physicalProduct n p q w none).isExpired now = false ∧
      (physicalProduct n p q w (some 0)).isExpired now = false ∧
      ∀ t : Int, ((physicalProduct n p q w (some t)).isExpired now = true ↔
        t ≠ 0 ∧ now > t) := by
  refine ⟨rfl, rfl, rfl, rfl, fun t => ?_⟩
  by_cases h : t = 0
  · simp [physicalProduct, Product.isExpired, h]
  · simp [physicalProduct, Product.isExpired, h]

/-- C15 as stated fails: a physical product built with the expiration
timestamp `0` is not expired at time `1`, although `1` is later than `0`. -/
theorem isExpired_counterexample :
    (physicalProduct "جبنة" (Double.ofInt 100) 10 (Double.lit 2 10) (some 0)).isExpired 1
        = false ∧
      (1 : Int) > 0 := by
  decide

/-! ## Quantities of the lines -/

/-- C17, amended. A cart built from the empty cart by `addItem` calls,
throwing or not, in which no call brings the quantity of a line above
`INT_MAX`, has a positive quantity on every line. -/
theorem reachable_quantities_positive (cart : ShoppingCart)
    (hreach : ShoppingCart.ReachableNoOverflow cart) :
    ShoppingCart.Reachable cart ∧ ∀ item ∈ cart.items, 0 < item.quantity :=
  ⟨reachableNoOverflow_reachable cart hreach, reachableNoOverflow_pos cart hreach⟩

/-- C17 as stated fails. The stock of the card is `INT_MAX`;
`addItem(&card, INT_MAX)` succeeds twice on a fresh cart, and the one line of
the cart then holds `-2`. -/
theorem reachable_quantities_counterexample :
    ShoppingCart.Reachable wrappedCart ∧
      (fullStore 0).getQuantity = 2147483647 ∧
      (ShoppingCart.addItem fullStore 0 ⟨[]⟩ 0 2147483647).error = none ∧
      (ShoppingCart.addItem fullStore 0 ⟨[]⟩ 0 2147483647).cart = fullCart ∧
      (ShoppingCart.addItem fullStore 0 fullCart 0 2147483647).error = none ∧
      (ShoppingCart.addItem fullStore 0 fullCart 0 2147483647).cart = wrappedCart ∧
      wrappedCart = ⟨[⟨0, -2⟩]⟩ ∧
      ¬ ∀ item ∈ wrappedCart.items, 0 < item.quantity :=
  ⟨ShoppingCart.Reachable.step _ _ _ _ _
      (ShoppingCart.Reachable.step _ _ _ _ _ ShoppingCart.Reachable.empty),
    by decide, by decide, by decide, by decide, by decide, by decide, by decide⟩

/-- The lines of the cart of `main` after three more biscuits have positive
quantities: no call brings a line above `INT_MAX`. -/
theorem reachable_quantities_positive_witness :
    ShoppingCart.ReachableNoOverflow
        (ShoppingCart.addItem (demoStore 0) 0 (demoCart 0) 1 3).cart ∧
      (ShoppingCart.addItem (demoStore 0) 0 (demoCart 0) 1 3).cart.items =
        [⟨0, 2⟩, ⟨1, 4⟩, ⟨3, 1⟩] ∧
      ShoppingCart.Reachable (ShoppingCart.addItem (demoStore 0) 0 (demoCart 0) 1 3).cart ∧
      ∀ item ∈ (ShoppingCart.addItem (demoStore 0) 0 (demoCart 0) 1 3).cart.items,
        0 < item.quantity :=
  have hreach :
      ShoppingCart.ReachableNoOverflow
        (ShoppingCart.addItem (demoStore 0) 0 (demoCart 0) 1 3).cart :=
    ShoppingCart.ReachableNoOverflow.step _ _ _ _ _
      (ShoppingCart.ReachableNoOverflow.step _ _ _ _ _
        (ShoppingCart.ReachableNoOverflow.step _ _ _ _ _
          (ShoppingCart.ReachableNoOverflow.step _ _ _ _ _
            ShoppingCart.ReachableNoOverflow.empty (fun _ => by decide))
          (fun _ => by decide))
        (fun _ => by decide))
      (fun _ => by decide)
  ⟨hreach, by decide, reachable_quantities_positive _ hreach⟩

/-! ## More on the rounding function -/

theorem roundHalfEven_le (n d : Nat) : roundHalfEven n d ≤ n / d + 1 := by
  unfold roundHalfEven
  simp only
  split
  · omega
  · split
    · omega
    · split <;> omega

theorem roundHalfEven_scale (a b d : Nat) (hd : 0 < d) :
    roundHalfEven (a * d) (b * d) = roundHalfEven a b := by
  unfold roundHalfEven
  simp only [Nat.mul_div_mul_right a b hd, Nat.mul_mod_mul_right]
  have h1 : (2 * (a % b * d) < b * d) ↔ (2 * (a % b) < b) := by
    rw [← Nat.mul_assoc]
    exact Nat.mul_lt_mul_right hd
  have h2 : (b * d < 2 * (a % b * d)) ↔ (b < 2 * (a % b)) := by
    rw [← Nat.mul_assoc]
    exact Nat.mul_lt_mul_right hd
  simp only [h1, h2]

theorem mantissa_le (a d : Nat) :
    roundHalfEven a (d <<< (ilog2 (a / d) + 1 - 53)) ≤ 2 ^ 53 := by
  have hle := roundHalfEven_le a (d <<< (ilog2 (a / d) + 1 - 53))
  suffices h : a / (d <<< (ilog2 (a / d) + 1 - 53)) < 2 ^ 53 by omega
  rw [Nat.shiftLeft_eq, ← Nat.div_div_eq_div_mul]
  by_cases h0 : a / d = 0
  · rw [h0]
    simp
  · obtain ⟨_, l2⟩ := ilog2_spec (a / d) h0
    rw [Nat.div_lt_iff_lt_mul (by positivity)]
    apply lt_of_lt_of_le l2
    rw [← pow_add]
    exact Nat.pow_le_pow_right (by norm_num) (by omega)

theorem Int.natAbs_signed (k : Int) :
    (if k < 0 then -((k.natAbs : Nat) : Int) else ((k.natAbs : Nat) : Int)) = k := by
  split <;> omega

/-- Rounding a number of the form `m * 2 ^ s` with `m ≤ 2 ^ 53` that does not
overflow returns that number. -/
theorem Double.roundRatio_of_mantissa (k : Int) (m s : Nat) (hm : m ≤ 2 ^ 53)
    (hk : k.natAbs = m * 2 ^ s) (hbound : ¬ Double.overflowBound ≤ k.natAbs) :
    Double.roundRatio k 1 = Double.fin k := by
  have hexact : roundHalfEven k.natAbs (1 <<< (ilog2 (k.natAbs / 1) + 1 - 53)) <<<
      (ilog2 (k.natAbs / 1) + 1 - 53) = k.natAbs := by
    rw [hk]
    by_cases h53 : m < 2 ^ 53
    · exact round_scaled_exact m s h53
    · have hm2 : m = 2 ^ 53 := by omega
      have hsplit : m * 2 ^ s = 2 ^ 52 * 2 ^ (s + 1) := by
        rw [hm2, pow_succ 2 s, Nat.mul_comm (2 ^ s) 2, ← Nat.mul_assoc]
        norm_num
      rw [hsplit]
      exact round_scaled_exact (2 ^ 52) (s + 1) (by norm_num)
  unfold Double.roundRatio
  simp only [hexact, hbound, if_false]
  rw [Int.natAbs_signed]

/-- Rounding is idempotent: what `roundRatio` returns is a double. -/
theorem Double.roundRatio_idem (n : Int) (d : Nat) (k : Int)
    (h : Double.roundRatio n d = Double.fin k) : Double.roundRatio k 1 = Double.fin k := by
  unfold Double.roundRatio at h
  simp only at h
  split at h
  · simp at h
  · rename_i hbound
    have hk : k.natAbs =
        roundHalfEven n.natAbs (d <<< (ilog2 (n.natAbs / d) + 1 - 53)) *
          2 ^ (ilog2 (n.natAbs / d) + 1 - 53) := by
      rw [← Nat.shiftLeft_eq]
      have hk2 := Double.fin.inj h
      generalize roundHalfEven n.natAbs (d <<< (ilog2 (n.natAbs / d) + 1 - 53)) <<<
        (ilog2 (n.natAbs / d) + 1 - 53) = r at hk2 ⊢
      split at hk2 <;> omega
    apply Double.roundRatio_of_mantissa k _ _ (mantissa_le n.natAbs d) hk
    rw [hk, ← Nat.shiftLeft_eq]
    exact hbound

theorem Double.isRepresentable_add (a b : Double) :
    Double.isRepresentable (Double.add a b) = true := by
  cases a <;> cases b <;> simp only [Double.add] <;> try rfl
  case inf.inf s t =>
    split <;> rfl
  case fin.fin x y =>
    cases h : Double.roundRatio (x + y) 1 with
    | nan => rfl
    | inf s => rfl
    | fin k =>
      simp only [Double.isRepresentable, decide_eq_true_eq]
      exact Double.roundRatio_idem _ _ _ h

/-- Adding `0.0` to a double leaves it as it is. -/
theorem Double.add_zero (x : Double) (hx : Double.isRepresentable x = true) :
    Double.add x Double.zero = x := by
  cases x with
  | nan => rfl
  | inf s => rfl
  | fin k =>
    simp only [Double.isRepresentable, decide_eq_true_eq] at hx
    simp only [Double.add, Double.zero, Int.add_zero]
    exact hx

/-- Rounding a non-negative number gives a non-negative double. -/
theorem Double.roundRatio_nonneg (n : Int) (d : Nat) (h : 0 ≤ n) :
    Double.le Double.zero (Double.roundRatio n d) = true := by
  have hn : ¬ n < 0 := not_lt.mpr h
  unfold Double.roundRatio
  simp only [hn, if_false, decide_False]
  split
  · rfl
  · simp [Double.le, Double.zero]

/-- Exactness on a grid: an integer of magnitude below `2 ^ 53` times a power
of two (at most `2 ^ 1074` units, that is `1.0`) is a double. -/
theorem Double.roundRatio_grid (n : Int) (u : Nat) (hn : n.natAbs < 2 ^ 53)
    (hu : u ≤ Double.unitExponent) :
    Double.roundRatio (n * 2 ^ u) 1 = Double.fin (n * 2 ^ u) := by
  have habs : (n * 2 ^ u : Int).natAbs = n.natAbs * 2 ^ u := by
    rw [Int.natAbs_mul, Int.natAbs_pow]
    rfl
  apply Double.roundRatio_of_mantissa _ n.natAbs u (le_of_lt hn) habs
  rw [habs, Double.overflowBound_eq, not_le, Nat.mul_comm (2 ^ Double.unitExponent)]
  have h1 : n.natAbs < 2 ^ Double.overflowExponent :=
    lt_of_lt_of_le hn (Nat.pow_le_pow_right (by norm_num) (by decide))
  have h2 : 2 ^ u ≤ 2 ^ Double.unitExponent := Nat.pow_le_pow_right (by norm_num) hu
  calc n.natAbs * 2 ^ u ≤ n.natAbs * 2 ^ Double.unitExponent := Nat.mul_le_mul_left _ h2
    _ < 2 ^ Double.overflowExponent * 2 ^ Double.unitExponent :=
      Nat.mul_lt_mul_of_pos_right h1 (by positivity)

/-- Scaling numerator and denominator by the same positive factor does not
change the rounded value. -/
theorem Double.roundRatio_mul_right (n : Int) (d : Nat) (hd : 0 < d) :
    Double.roundRatio (n * d) d = Double.roundRatio n 1 := by
  have habs : (n * (d : Int)).natAbs = n.natAbs * d := by
    rw [Int.natAbs_mul, Int.natAbs_ofNat]
  have hsign : (n * (d : Int) < 0) ↔ n < 0 := by
    have hdpos : (0 : Int) < (d : Int) := by exact_mod_cast hd
    constructor
    · intro h
      by_contra hc
      have := Int.mul_nonneg (not_lt.mp hc) (le_of_lt hdpos)
      omega
    · intro h
      exact Int.mul_neg_of_neg_of_pos h hdpos
  unfold Double.roundRatio
  simp only [habs, Nat.mul_div_cancel _ hd, Nat.div_one, hsign]
  have hround : roundHalfEven (n.natAbs * d) (d <<< (ilog2 n.natAbs + 1 - 53)) =
      roundHalfEven n.natAbs (1 <<< (ilog2 n.natAbs + 1 - 53)) := by
    rw [Nat.shiftLeft_eq, Nat.shiftLeft_eq, Nat.one_mul, Nat.mul_comm d]
    exact roundHalfEven_scale _ _ _ hd
  rw [hround]

/-! ## Exact arithmetic on a grid -/

theorem Double.add_grid (a b : Int) (u : Nat) (h : (a + b).natAbs < 2 ^ 53)
    (hu : u ≤ Double.unitExponent) :
    Double.add (Double.fin (a * 2 ^ u)) (Double.fin (b * 2 ^ u)) =
      Double.fin ((a + b) * 2 ^ u) := by
  simp only [Double.add]
  rw [← Int.add_mul]
  exact Double.roundRatio_grid _ _ h hu

theorem Double.mul_grid_ofInt (a q : Int) (u : Nat) (hq : q.natAbs < 2 ^ 53)
    (haq : (a * q).natAbs < 2 ^ 53) (hu : u ≤ Double.unitExponent) :
    Double.mul (Double.fin (a * 2 ^ u)) (Double.ofInt q) = Double.fin (a * q * 2 ^ u) := by
  rw [Double.ofInt_exact q hq]
  simp only [Double.mul]
  have hpos : 0 < Double.one := by
    rw [Double.one_eq]
    positivity
  have hre : a * 2 ^ u * (q * (Double.one : Int)) = (a * q * 2 ^ u) * (Double.one : Int) := by
    ring
  rw [hre, Double.roundRatio_mul_right _ _ hpos]
  exact Double.roundRatio_grid _ _ haq hu

theorem sum_units_nonneg (units : ProductId → Nat) (items : List CartItem)
    (hq : ∀ item ∈ items, 0 ≤ item.quantity) :
    0 ≤ (items.map (fun item => (units item.product : Int) * item.quantity)).sum := by
  induction items with
  | nil => simp
  | cons x rest ih =>
    have h1 := hq x (List.mem_cons_self _ _)
    have h2 := ih (fun y hy => hq y (List.mem_cons_of_mem _ hy))
    have h3 : 0 ≤ (units x.product : Int) * x.quantity :=
      Int.mul_nonneg (Int.ofNat_nonneg _) h1
    simp only [List.map_cons, List.sum_cons]
    omega

/-- The running sum of `getSubtotal` is exact when the prices are whole
multiples of one power of two and the amounts stay below `2 ^ 53` of them. -/
theorem subtotal_grid (store : Store) (e : Nat) (units : ProductId → Nat)
    (he : e ≤ Double.unitExponent) (items : List CartItem) (acc : Int) (hacc : 0 ≤ acc)
    (hprice : ∀ item ∈ items,
      (store item.product).getPrice = Double.fin ((units item.product : Int) * 2 ^ e))
    (hq : ∀ item ∈ items, 0 ≤ item.quantity ∧ item.quantity ≤ INT_MAX)
    (hbound : acc + (items.map (fun item => (units item.product : Int) * item.quantity)).sum
      < 2 ^ 53) :
    items.foldl (fun total item => Double.add total (item.totalPrice store))
        (Double.fin (acc * 2 ^ e)) =
      Double.fin
        ((acc + (items.map (fun item => (units item.product : Int) * item.quantity)).sum)
          * 2 ^ e) := by
  induction items generalizing acc with
  | nil => simp
  | cons x rest ih =>
    have hx := hq x (List.mem_cons_self _ _)
    have hrest := sum_units_nonneg units rest
      (fun y hy => (hq y (List.mem_cons_of_mem _ hy)).1)
    have hterm : 0 ≤ (units x.product : Int) * x.quantity :=
      Int.mul_nonneg (Int.ofNat_nonneg _) hx.1
    simp only [List.map_cons, List.sum_cons] at hbound ⊢
    have hmax : INT_MAX = 2147483647 := rfl
    have hprod : CartItem.totalPrice store x =
        Double.fin ((units x.product : Int) * x.quantity * 2 ^ e) := by
      unfold CartItem.totalPrice
      rw [hprice x (List.mem_cons_self _ _)]
      exact Double.mul_grid_ofInt _ _ _ (by omega) (by omega) he
    rw [List.foldl_cons, hprod, Double.add_grid _ _ _ (by omega) he,
      ih (acc + (units x.product : Int) * x.quantity) (by omega)
        (fun y hy => hprice y (List.mem_cons_of_mem _ hy))
        (fun y hy => hq y (List.mem_cons_of_mem _ hy)) (by omega)]
    congr 2
    omega

theorem totalWeight_append (acc : Double) (l1 l2 : List (Option Shippable)) :
    ShippingService.totalWeight acc (l1 ++ l2) =
      (ShippingService.totalWeight acc l1).bind
        (fun a => ShippingService.totalWeight a l2) := by
  induction l1 generalizing acc with
  | nil => rfl
  | cons x rest ih =>
    cases x with
    | none => rfl
    | some item =>
      show ShippingService.totalWeight (Double.add acc item.weight) (rest ++ l2) = _
      rw [ih]
      rfl

theorem totalWeight_replicate_grid (e : Nat) (he : e ≤ Double.unitExponent) (w : Nat)
    (name : String) (n : Nat) (acc : Int) (hacc : 0 ≤ acc)
    (hbound : acc + (w : Int) * n < 2 ^ 53) :
    ShippingService.totalWeight (Double.fin (acc * 2 ^ e))
        (List.replicate n (some ⟨name, Double.fin ((w : Int) * 2 ^ e)⟩)) =
      some (Double.fin ((acc + (w : Int) * n) * 2 ^ e)) := by
  induction n generalizing acc with
  | zero => simp [ShippingService.totalWeight]
  | succ n ih =>
    have hw : (0 : Int) ≤ (w : Int) * n := Int.mul_nonneg (Int.ofNat_nonneg _) (Int.ofNat_nonneg _)
    have hw0 : (0 : Int) ≤ (w : Int) := Int.ofNat_nonneg _
    have hexp : (w : Int) * ((n + 1 : Nat) : Int) = (w : Int) + (w : Int) * n := by
      push_cast
      ring
    rw [hexp] at hbound ⊢
    simp only [List.replicate_succ, ShippingService.totalWeight]
    rw [Double.add_grid _ _ _ (by omega) he, ih (acc + w) (by omega) (by omega)]
    congr 3
    omega

/-! ## The shippable expansion -/

theorem expansion_length (store : Store) (items : List CartItem)
    (hpos : ∀ item ∈ items, (store item.product).requiresShipping = true →
      0 ≤ item.quantity) :
    (((items.flatMap (fun item =>
        if (store item.product).requiresShipping then
          List.replicate item.quantity.toNat (dynamicCastShippable (store item.product))
        else [])).length : Nat) : Int) =
      ((items.filter (fun item => (store item.product).requiresShipping)).map
        CartItem.quantity).sum := by
  induction items with
  | nil => simp
  | cons x rest ih =>
    have hrest := ih (fun y hy => hpos y (List.mem_cons_of_mem _ hy))
    rw [List.flatMap_cons, List.length_append, Nat.cast_add, hrest]
    by_cases hreq : (store x.product).requiresShipping = true
    · simp only [List.filter_cons, hreq, if_true, List.length_replicate, List.map_cons,
        List.sum_cons]
      rw [Int.toNat_of_nonneg (hpos x (List.mem_cons_self _ _) hreq)]
    · simp [List.filter_cons, hreq]

/-- C13, amended. For every cart `getShippableItems` is the concatenation, in
line order, of one block per line: as many copies of the cast pointer of the
product as the quantity of the line when the product requires shipping (none
when that quantity is not positive), and nothing when it does not (a digital
product never does); a cart of digital products only yields the empty list;
and when no line that requires shipping has a negative quantity, the block of
each such line has exactly `quantity` copies and the length of the result is
the sum of the quantities of the lines that require shipping; no line of a
cart built by `addItem` calls none of which brings a line above `INT_MAX` has
a negative quantity. -/
theorem getShippableItems_expansion (store : Store) (cart : ShoppingCart) :
    cart.getShippableItems store =
        cart.items.flatMap (fun item =>
          if (store item.product).requiresShipping then
            List.replicate item.quantity.toNat (dynamicCastShippable (store item.product))
          else []) ∧
      (∀ item ∈ cart.items, (store item.product).kind = .digital →
        (store item.product).requiresShipping = false) ∧
      ((∀ item ∈ cart.items, (store item.product).kind = .digital) →
        cart.getShippableItems store = []) ∧
      ((∀ item ∈ cart.items, (store item.product).requiresShipping = true →
          0 ≤ item.quantity) →
        (∀ item ∈ cart.items, (store item.product).requiresShipping = true →
          ((item.quantity.toNat : Nat) : Int) = item.quantity) ∧
          (((cart.getShippableItems store).length : Nat) : Int) =
            ((cart.items.filter (fun item => (store item.product).requiresShipping)).map
              CartItem.quantity).sum) ∧
      (ShoppingCart.ReachableNoOverflow cart → ∀ item ∈ cart.items, 0 ≤ item.quantity) := by
  have heq := getShippableItems_eq_flatMap store cart
  refine ⟨heq, ?_, ?_, ?_, ?_⟩
  · intro item _ hkind
    simp [Product.requiresShipping, hkind]
  · intro hdig
    rw [heq, List.flatMap_eq_nil_iff]
    intro item hitem
    simp [Product.requiresShipping, hdig item hitem]
  · intro hpos
    refine ⟨fun item hitem hreq => Int.toNat_of_nonneg (hpos item hitem hreq), ?_⟩
    rw [heq]
    exact expansion_length store cart.items hpos
  · intro hreach item hitem
    exact le_of_lt (reachableNoOverflow_pos cart hreach item hitem)

/-- C13 as stated fails. The stock of the biscuits is `INT_MAX`;
`addItem(&biscuits, INT_MAX)` succeeds twice on a fresh cart and the line of
the biscuits, which require shipping, holds `-2`: `getShippableItems` returns
no handle, and the length `0` of its result is not the sum `-2` of the
quantities of the lines that require shipping. -/
theorem getShippableItems_counterexample :
    ShoppingCart.Reachable bulkCart ∧
      (bulkStore 0).getQuantity = 2147483647 ∧
      (ShoppingCart.addItem bulkStore 0 ⟨[]⟩ 0 2147483647).error = none ∧
      (ShoppingCart.addItem bulkStore 0
        (ShoppingCart.addItem bulkStore 0 ⟨[]⟩ 0 2147483647).cart 0 2147483647).error = none ∧
      bulkCart = ⟨[⟨0, -2⟩]⟩ ∧
      (bulkStore 0).requiresShipping = true ∧
      bulkCart.getShippableItems bulkStore = [] ∧
      ((bulkCart.items.filter (fun item => (bulkStore item.product).requiresShipping)).map
        CartItem.quantity).sum = -2 ∧
      (((bulkCart.getShippableItems bulkStore).length : Nat) : Int) ≠
        ((bulkCart.items.filter (fun item => (bulkStore item.product).requiresShipping)).map
          CartItem.quantity).sum :=
  ⟨ShoppingCart.Reachable.step _ _ _ _ _
      (ShoppingCart.Reachable.step _ _ _ _ _ ShoppingCart.Reachable.empty),
    by decide, by decide, by decide, by decide, by decide, by decide, by decide, by decide⟩

/-! ## The subtotal -/

theorem getSubtotal_nil (store : Store) : ShoppingCart.getSubtotal store ⟨[]⟩ = Double.zero :=
  rfl

theorem zero_grid (e : Nat) : Double.zero = Double.fin ((0 : Int) * 2 ^ e) := by
  simp [Double.zero]

/-- C14. `getSubtotal` is the sum over the lines, in line order and starting
from `0.0`, of price times quantity, sum and product being those of `double`;
for the empty cart it is `0`; and when the prices are whole multiples of one
power of two (whole currency units, for instance) and the sum stays below
`2 ^ 53` such multiples, no operation rounds: the subtotal is the exact sum. -/
theorem getSubtotal_sum (store : Store) (cart : ShoppingCart) :
    cart.getSubtotal store =
        (cart.items.map (fun item =>
          Double.mul (store item.product).getPrice (Double.ofInt item.quantity))).foldl
          Double.add Double.zero ∧
      ShoppingCart.getSubtotal store ⟨[]⟩ = Double.zero ∧
      ∀ (e : Nat) (units : ProductId → Nat), e ≤ Double.unitExponent →
        (∀ item ∈ cart.items,
          (store item.product).getPrice = Double.fin ((units item.product : Int) * 2 ^ e)) →
        (∀ item ∈ cart.items, 0 ≤ item.quantity ∧ item.quantity ≤ INT_MAX) →
        (cart.items.map (fun item => (units item.product : Int) * item.quantity)).sum
          < 2 ^ 53 →
        cart.getSubtotal store =
          Double.fin
            ((cart.items.map (fun item => (units item.product : Int) * item.quantity)).sum
              * 2 ^ e) := by
  refine ⟨?_, rfl, ?_⟩
  · unfold ShoppingCart.getSubtotal
    rw [List.foldl_map]
    rfl
  · intro e units he hprice hq hbound
    have h := subtotal_grid store e units he cart.items 0 (le_refl _) hprice hq
      (by simpa using hbound)
    unfold ShoppingCart.getSubtotal
    rw [zero_grid e, h]
    simp

/-! ## The sign of the balance -/

theorem deduct_balance_nonneg (customer : Customer) (amount : Double)
    (h0 : Double.le Double.zero customer.balance = true)
    (hfin : amount.isFinite = true) :
    Double.le Double.zero (customer.deduct amount).customer.balance = true := by
  by_cases hlt : Double.lt customer.balance amount = true
  · simp only [Customer.deduct, hlt, if_true]
    exact h0
  · simp only [Customer.deduct, hlt, if_false]
    cases amount with
    | nan => simp [Double.isFinite] at hfin
    | inf s => simp [Double.isFinite] at hfin
    | fin ka =>
      cases hb : customer.balance with
      | nan => simp [hb, Double.le, Double.zero] at h0
      | inf s =>
        rw [hb] at h0
        cases s with
        | true => simp [Double.le, Double.zero] at h0
        | false => rfl
      | fin kb =>
        rw [hb] at h0 hlt
        simp only [Double.le, Double.zero, decide_eq_true_eq] at h0
        simp only [Double.lt, decide_eq_true_eq] at hlt
        simp only [Double.sub, Double.neg, Double.add]
        exact Double.roundRatio_nonneg _ _ (by omega)

theorem checkout_customer (customer : Customer) (cart : ShoppingCart) (store : Store) :
    (checkout customer cart store).customer =
      match BalanceCall.amount (.checkout cart store) with
      | none => customer
      | some total => (customer.deduct total).customer := by
  by_cases hempty : cart.isEmpty = true
  · simp [checkout, BalanceCall.amount, hempty]
  · cases hfee : ShippingService.calculateFee (cart.getShippableItems store) with
    | none => simp [checkout, BalanceCall.amount, hempty, hfee]
    | some shipping =>
      by_cases hlt : Double.lt customer.balance
          (Double.add (cart.getSubtotal store) shipping) = true
      · simp [checkout, BalanceCall.amount, hempty, hfee, Customer.deduct, hlt]
      · simp [checkout, BalanceCall.amount, hempty, hfee, Customer.deduct, hlt]

theorem applyBalanceCall_nonneg (customer : Customer) (call : BalanceCall)
    (h0 : Double.le Double.zero customer.balance = true)
    (hfin : ∀ a, call.amount = some a → a.isFinite = true) :
    Double.le Double.zero (applyBalanceCall customer call).balance = true := by
  cases call with
  | deduct amount => exact deduct_balance_nonneg customer amount h0 (hfin amount rfl)
  | checkout cart store =>
    show Double.le Double.zero (checkout customer cart store).customer.balance = true
    rw [checkout_customer]
    cases ha : BalanceCall.amount (.checkout cart store) with
    | none => exact h0
    | some total => exact deduct_balance_nonneg customer total h0 (hfin total ha)

/-- C16, amended. A customer whose balance is non-negative goes through a
sequence of `deduct` and `checkout` calls; when every amount handed to
`deduct` (the argument of a direct call, `subtotal + shipping` in a checkout)
is a finite number, the balance is non-negative after each call. -/
theorem balance_stays_nonneg (customer : Customer) (calls : List BalanceCall)
    (h0 : Double.le Double.zero customer.balance = true)
    (hfin : ∀ call ∈ calls, ∀ a, call.amount = some a → a.isFinite = true) :
    ∀ n : Nat,
      Double.le Double.zero ((calls.take n).foldl applyBalanceCall customer).balance
        = true := by
  induction calls generalizing customer with
  | nil =>
    intro n
    simpa using h0
  | cons call rest ih =>
    intro n
    cases n with
    | zero => simpa using h0
    | succ n =>
      rw [List.take_succ_cons, List.foldl_cons]
      exact ih (applyBalanceCall customer call)
        (applyBalanceCall_nonneg customer call h0 (hfin call (List.mem_cons_self _ _)))
        (fun c hc => hfin c (List.mem_cons_of_mem _ hc)) n

/-- C16 as stated fails. With the amount NaN, `deduct` does not throw
(`1000 < NaN` is false) and leaves the balance NaN, which is not `>= 0`. And
with finite numbers only: from the largest double as balance, deducting its
negative overflows the balance to `+inf`, and the checkout of two units of a
product priced `2 ^ 1023` (total `+inf`) then leaves the balance NaN. -/
theorem balance_counterexample :
    Double.le Double.zero (Double.ofInt 1000) = true ∧
      (Customer.deduct ⟨"أحمد", Double.ofInt 1000⟩ Double.nan).error = none ∧
      (Customer.deduct ⟨"أحمد", Double.ofInt 1000⟩ Double.nan).customer.balance
        = Double.nan ∧
      Double.le Double.zero Double.nan = false ∧
      Double.isFinite Double.max = true ∧
      Double.isRepresentable Double.max = true ∧
      Double.le Double.zero Double.max = true ∧
      (hugeStore 0).getPrice.isFinite = true ∧
      Double.isRepresentable (hugeStore 0).getPrice = true ∧
      hugeCart = ⟨[⟨0, 2⟩]⟩ ∧
      (applyBalanceCall ⟨"أحمد", Double.max⟩ (.deduct (Double.neg Double.max))).balance
        = Double.inf false ∧
      BalanceCall.amount (.checkout hugeCart hugeStore) = some (Double.inf false) ∧
      ([BalanceCall.deduct (Double.neg Double.max),
          BalanceCall.checkout hugeCart hugeStore].foldl applyBalanceCall
        ⟨"أحمد", Double.max⟩).balance = Double.nan := by
  decide

/-- The customer of `main` deducts 100, checks out the cart of `main` (408)
and fails to deduct 5000: the balance stays non-negative throughout and ends
at 492. -/
theorem balance_stays_nonneg_witness :
    Double.le Double.zero demoCustomer.balance = true ∧
      (∀ call ∈ [BalanceCall.deduct (Double.ofInt 100),
          BalanceCall.checkout (demoCart 0) (demoStore 0),
          BalanceCall.deduct (Double.ofInt 5000)],
        ∀ a, call.amount = some a → a.isFinite = true) ∧
      (∀ n : Nat,
        Double.le Double.zero
          (([BalanceCall.deduct (Double.ofInt 100),
              BalanceCall.checkout (demoCart 0) (demoStore 0),
              BalanceCall.deduct (Double.ofInt 5000)].take n).foldl
            applyBalanceCall demoCustomer).balance = true) ∧
      ([BalanceCall.deduct (Double.ofInt 100),
          BalanceCall.checkout (demoCart 0) (demoStore 0),
          BalanceCall.deduct (Double.ofInt 5000)].foldl
        applyBalanceCall demoCustomer).balance = Double.ofInt 492 :=
  have hfin : ∀ call ∈ [BalanceCall.deduct (Double.ofInt 100),
      BalanceCall.checkout (demoCart 0) (demoStore 0),
      BalanceCall.deduct (Double.ofInt 5000)],
      ∀ a, call.amount = some a → a.isFinite = true := by
    intro call hcall a ha
    have h408 : BalanceCall.amount (.checkout (demoCart 0) (demoStore 0)) =
        some (Double.ofInt 408) := by decide
    simp only [List.mem_cons, List.mem_singleton, List.not_mem_nil, or_false] at hcall
    rcases hcall with h | h | h
    · subst h
      simp only [BalanceCall.amount, Option.some.injEq] at ha
      subst ha
      decide
    · subst h
      rw [h408, Option.some.injEq] at ha
      subst ha
      decide
    · subst h
      simp only [BalanceCall.amount, Option.some.injEq] at ha
      subst ha
      decide
  ⟨by decide, hfin, balance_stays_nonneg demoCustomer _ (by decide) hfin, by decide⟩

/-! ## The subtotal after `addItem` -/

theorem addToLines_le (items : List CartItem) (product : ProductId) (quantity : Int)
    (hq : quantity ≤ INT_MAX) (h : ∀ item ∈ items, item.quantity ≤ INT_MAX) :
    ∀ item ∈ ShoppingCart.addToLines items product quantity, item.quantity ≤ INT_MAX := by
  induction items with
  | nil =>
    intro item hitem
    simp only [ShoppingCart.addToLines, List.mem_singleton] at hitem
    subst hitem
    exact hq
  | cons x rest ih =>
    intro item hitem
    unfold ShoppingCart.addToLines at hitem
    split at hitem
    · rcases List.mem_cons.mp hitem with e | hmem
      · subst e
        exact (wrapInt_range _).2
      · exact h item (List.mem_cons_of_mem _ hmem)
    · rcases List.mem_cons.mp hitem with e | hmem
      · subst e
        exact h _ (List.mem_cons_self _ _)
      · exact ih (fun y hy => h y (List.mem_cons_of_mem _ hy)) item hmem

theorem sum_addToLines (units : ProductId → Nat) (items : List CartItem)
    (product : ProductId) (quantity : Int) (hq : 0 < quantity)
    (h : ∀ item ∈ items, 0 < item.quantity)
    (hfit : ∀ item ∈ items, item.product = product → item.quantity + quantity ≤ INT_MAX) :
    ((ShoppingCart.addToLines items product quantity).map
        (fun item => (units item.product : Int) * item.quantity)).sum =
      (items.map (fun item => (units item.product : Int) * item.quantity)).sum +
        (units product : Int) * quantity := by
  induction items with
  | nil => simp [ShoppingCart.addToLines]
  | cons x rest ih =>
    unfold ShoppingCart.addToLines
    split
    · rename_i hx
      simp only [List.map_cons, List.sum_cons, hx]
      rw [addToLines_fits (x :: rest) product quantity hq h hfit x
        (List.mem_cons_self _ _) hx]
      ring
    · simp only [List.map_cons, List.sum_cons,
        ih (fun y hy => h y (List.mem_cons_of_mem _ hy))
          (fun y hy => hfit y (List.mem_cons_of_mem _ hy))]
      ring

/-- C18, amended. After a successful `addItem` on a cart whose lines have
positive quantities (such is every cart built by `addItem` calls none of which
brings a line above `INT_MAX`): when the product had no line, the subtotal is
the subtotal before plus price times quantity (sum and product of `double`);
and, line or no line, the same holds when every price is a whole multiple of
one power of two (whole currency units, for instance), the quantities, the
merged one included, fit an `int` and the new sum stays below `2 ^ 53` such
multiples, since then no operation rounds. -/
theorem addItem_subtotal (store : Store) (now : Int) (cart : ShoppingCart)
    (product : ProductId) (quantity : Int)
    (hpos : ∀ item ∈ cart.items, 0 < item.quantity)
    (hok : (ShoppingCart.addItem store now cart product quantity).error = none) :
    (product ∉ cart.items.map CartItem.product →
        (ShoppingCart.addItem store now cart product quantity).cart.getSubtotal store =
          Double.add (cart.getSubtotal store)
            (Double.mul (store product).getPrice (Double.ofInt quantity))) ∧
      ∀ (e : Nat) (units : ProductId → Nat), e ≤ Double.unitExponent →
        (∀ id : ProductId, (store id).getPrice = Double.fin ((units id : Int) * 2 ^ e)) →
        (∀ item ∈ cart.items, item.quantity ≤ INT_MAX) →
        (∀ item ∈ cart.items, item.product = product →
          item.quantity + quantity ≤ INT_MAX) →
        quantity ≤ INT_MAX →
        (cart.items.map (fun item => (units item.product : Int) * item.quantity)).sum +
          (units product : Int) * quantity < 2 ^ 53 →
        (ShoppingCart.addItem store now cart product quantity).cart.getSubtotal store =
          Double.add (cart.getSubtotal store)
            (Double.mul (store product).getPrice (Double.ofInt quantity)) := by
  obtain ⟨hq, hcart⟩ := addItem_cart_of_ok store now cart product quantity hok
  rw [hcart]
  constructor
  · intro hmem
    rw [addToLines_of_not_mem _ _ _ hmem]
    unfold ShoppingCart.getSubtotal
    rw [List.foldl_append]
    rfl
  · intro e units he hprice hint hfit hqint hbound
    have hpos2 := addToLines_pos cart.items product quantity hq hpos hfit
    have hsum := sum_addToLines units cart.items product quantity hq hpos hfit
    have hint2 : ∀ item ∈ ShoppingCart.addToLines cart.items product quantity,
        item.quantity ≤ INT_MAX :=
      addToLines_le cart.items product quantity hqint hint
    have hnn := sum_units_nonneg units cart.items (fun y hy => le_of_lt (hpos y hy))
    have hterm : (0 : Int) ≤ (units product : Int) * quantity :=
      Int.mul_nonneg (Int.ofNat_nonneg _) (le_of_lt hq)
    have hmax : INT_MAX = 2147483647 := rfl
    have hafter := subtotal_grid store e units he
      (ShoppingCart.addToLines cart.items product quantity) 0 (le_refl _)
      (fun item _ => hprice item.product)
      (fun item hitem => ⟨le_of_lt (hpos2 item hitem), hint2 item hitem⟩)
      (by rw [hsum]; omega)
    have hbefore := subtotal_grid store e units he cart.items 0 (le_refl _)
      (fun item _ => hprice item.product)
      (fun item hitem => ⟨le_of_lt (hpos item hitem), hint item hitem⟩)
      (by omega)
    unfold ShoppingCart.getSubtotal
    rw [zero_grid e]
    simp only
    rw [hafter, hbefore, hprice product,
      Double.mul_grid_ofInt _ _ _ (by omega) (by omega) he,
      Double.add_grid _ _ _ (by omega) he, hsum]
    congr 2
    omega

/-- C18 as stated fails. A cart holds two units of a product priced `0.99`
(subtotal `1.98`); three more are added and merge into a line of five. The
subtotal afterwards is `0.99 * 5 = 4.95`, while the subtotal before plus
`0.99 * 3` is `4.949999999999999`, in `double` arithmetic; nor is the new
subtotal the exact sum: in units of `2 ^ (-1074)`, it differs from the old
subtotal plus three times the price. -/
theorem addItem_subtotal_counterexample :
    centsCart = ⟨[⟨0, 2⟩]⟩ ∧
      (ShoppingCart.addItem centsStore 0 centsCart 0 3).error = none ∧
      (ShoppingCart.addItem centsStore 0 centsCart 0 3).cart = ⟨[⟨0, 5⟩]⟩ ∧
      (centsStore 0).getPrice = Double.lit 99 100 ∧
      centsCart.getSubtotal centsStore = Double.lit 198 100 ∧
      (ShoppingCart.addItem centsStore 0 centsCart 0 3).cart.getSubtotal centsStore =
        Double.lit 495 100 ∧
      Double.add (centsCart.getSubtotal centsStore)
          (Double.mul (centsStore 0).getPrice (Double.ofInt 3)) =
        Double.lit 4949999999999999 1000000000000000 ∧
      (ShoppingCart.addItem centsStore 0 centsCart 0 3).cart.getSubtotal centsStore ≠
        Double.add (centsCart.getSubtotal centsStore)
          (Double.mul (centsStore 0).getPrice (Double.ofInt 3)) ∧
      (centsStore 0).getPrice.isFinite = true ∧
      (centsCart.getSubtotal centsStore).isFinite = true ∧
      ((ShoppingCart.addItem centsStore 0 centsCart 0 3).cart.getSubtotal
          centsStore).isFinite = true ∧
      Double.units
          ((ShoppingCart.addItem centsStore 0 centsCart 0 3).cart.getSubtotal centsStore) ≠
        Double.units (centsCart.getSubtotal centsStore) +
          3 * Double.units (centsStore 0).getPrice := by
  decide

theorem Double.ofInt_grid (z : Nat) (hz : z < 2 ^ 53) :
    Double.ofInt z = Double.fin ((z : Int) * 2 ^ Double.unitExponent) := by
  rw [Double.ofInt_exact (z : Int) (by simpa using hz), Double.one_eq]
  push_cast
  rfl

theorem demoStore_prices (now : Int) (id : ProductId) :
    (demoStore now id).getPrice =
      Double.fin ((demoUnits id : Int) * 2 ^ Double.unitExponent) := by
  rcases id with _ | _ | _ | _ | _ | id
  · exact Double.ofInt_grid 100 (by norm_num)
  · exact Double.ofInt_grid 150 (by norm_num)
  · exact Double.ofInt_grid 500 (by norm_num)
  · exact Double.ofInt_grid 25 (by norm_num)
  · exact Double.ofInt_grid 80 (by norm_num)
  · exact Double.ofInt_grid 80 (by norm_num)

/-- Three more biscuits (price 150) are added to the cart of `main`: the line
of the biscuits goes from 1 to 4 and the subtotal from 375 to 825, which is
375 plus `150 * 3`. -/
theorem addItem_subtotal_witness :
    (∀ item ∈ (demoCart 0).items, 0 < item.quantity) ∧
      (ShoppingCart.addItem (demoStore 0) 0 (demoCart 0) 1 3).error = none ∧
      (ShoppingCart.addItem (demoStore 0) 0 (demoCart 0) 1 3).cart.getSubtotal (demoStore 0) =
        Double.add ((demoCart 0).getSubtotal (demoStore 0))
          (Double.mul (demoStore 0 1).getPrice (Double.ofInt 3)) ∧
      (demoCart 0).getSubtotal (demoStore 0) = Double.ofInt 375 ∧
      (ShoppingCart.addItem (demoStore 0) 0 (demoCart 0) 1 3).cart.getSubtotal (demoStore 0) =
        Double.ofInt 825 :=
  have h := addItem_subtotal (demoStore 0) 0 (demoCart 0) 1 3 (by decide) (by decide)
  ⟨by decide, by decide,
    h.2 Double.unitExponent demoUnits (le_refl _) (demoStore_prices 0) (by decide) (by decide)
      (by decide) (by decide),
    by decide, by decide⟩

/-! ## The fee: unit by unit and in closed form -/

theorem sum_filter_units_nonneg (store : Store) (units : ProductId → Nat)
    (items : List CartItem) (hq : ∀ item ∈ items, 0 < item.quantity) :
    0 ≤ ((items.filter (fun item => (store item.product).requiresShipping)).map
      (fun item => (units item.product : Int) * item.quantity)).sum :=
  sum_units_nonneg units _
    (fun item hitem => le_of_lt (hq item (List.mem_of_mem_filter hitem)))

/-- The unit-by-unit sum of `calculateFee` is exact when the weights are whole
multiples of one power of two and the total stays below `2 ^ 53` of them. -/
theorem perUnit_grid (store : Store) (e : Nat) (units : ProductId → Nat)
    (he : e ≤ Double.unitExponent) (items : List CartItem) (acc : Int) (hacc : 0 ≤ acc)
    (hq : ∀ item ∈ items, 0 < item.quantity)
    (hgrid : ∀ item ∈ items, (store item.product).requiresShipping = true →
      ∃ exp, (store item.product).kind =
        .physical (Double.fin ((units item.product : Int) * 2 ^ e)) exp)
    (hbound : acc +
      ((items.filter (fun item => (store item.product).requiresShipping)).map
        (fun item => (units item.product : Int) * item.quantity)).sum < 2 ^ 53) :
    ShippingService.totalWeight (Double.fin (acc * 2 ^ e))
        (items.flatMap (fun item =>
          if (store item.product).requiresShipping then
            List.replicate item.quantity.toNat (dynamicCastShippable (store item.product))
          else [])) =
      some (Double.fin
        ((acc +
          ((items.filter (fun item => (store item.product).requiresShipping)).map
            (fun item => (units item.product : Int) * item.quantity)).sum) * 2 ^ e)) := by
  induction items generalizing acc with
  | nil => simp [ShippingService.totalWeight]
  | cons x rest ih =>
    have hx := hq x (List.mem_cons_self _ _)
    have hrest := sum_filter_units_nonneg store units rest
      (fun y hy => hq y (List.mem_cons_of_mem _ hy))
    rw [List.flatMap_cons, totalWeight_append]
    by_cases hreq : (store x.product).requiresShipping = true
    · obtain ⟨exp, hkind⟩ := hgrid x (List.mem_cons_self _ _) hreq
      simp only [List.filter_cons, hreq, if_true, List.map_cons, List.sum_cons] at hbound ⊢
      have hterm : (0 : Int) ≤ (units x.product : Int) * x.quantity :=
        Int.mul_nonneg (Int.ofNat_nonneg _) (le_of_lt hx)
      have hcast : dynamicCastShippable (store x.product) =
          some ⟨(store x.product).name,
            Double.fin ((units x.product : Int) * 2 ^ e)⟩ := by
        simp [dynamicCastShippable, hkind]
      have hn : ((x.quantity.toNat : Nat) : Int) = x.quantity :=
        Int.toNat_of_nonneg (le_of_lt hx)
      rw [hcast, totalWeight_replicate_grid e he _ _ _ acc hacc (by rw [hn]; omega), hn]
      simp only [Option.some_bind]
      rw [ih (acc + (units x.product : Int) * x.quantity) (by omega)
        (fun y hy => hq y (List.mem_cons_of_mem _ hy))
        (fun y hy => hgrid y (List.mem_cons_of_mem _ hy)) (by omega)]
      congr 3
      omega
    · simp only [List.filter_cons, hreq] at hbound ⊢
      simp only [Bool.false_eq_true, if_false, ShippingService.totalWeight, Option.some_bind]
      exact ih acc hacc (fun y hy => hq y (List.mem_cons_of_mem _ hy))
        (fun y hy => hgrid y (List.mem_cons_of_mem _ hy)) hbound

/-- The sum of the closed form is exact under the same conditions. -/
theorem closedForm_grid (store : Store) (e : Nat) (units : ProductId → Nat)
    (he : e ≤ Double.unitExponent) (items : List CartItem) (acc : Int) (hacc : 0 ≤ acc)
    (hq : ∀ item ∈ items, 0 < item.quantity ∧ item.quantity ≤ INT_MAX)
    (hgrid : ∀ item ∈ items,
      (store item.product).getWeight = Double.fin ((units item.product : Int) * 2 ^ e))
    (hbound : acc + (items.map (fun item => (units item.product : Int) * item.quantity)).sum
      < 2 ^ 53) :
    items.foldl
        (fun total item =>
          Double.add total
            (Double.mul (store item.product).getWeight (Double.ofInt item.quantity)))
        (Double.fin (acc * 2 ^ e)) =
      Double.fin
        ((acc + (items.map (fun item => (units item.product : Int) * item.quantity)).sum)
          * 2 ^ e) := by
  induction items generalizing acc with
  | nil => simp
  | cons x rest ih =>
    have hx := hq x (List.mem_cons_self _ _)
    have hrest := sum_units_nonneg units rest
      (fun y hy => le_of_lt (hq y (List.mem_cons_of_mem _ hy)).1)
    have hterm : 0 ≤ (units x.product : Int) * x.quantity :=
      Int.mul_nonneg (Int.ofNat_nonneg _) (le_of_lt hx.1)
    simp only [List.map_cons, List.sum_cons] at hbound ⊢
    have hmax : INT_MAX = 2147483647 := rfl
    rw [List.foldl_cons, hgrid x (List.mem_cons_self _ _),
      Double.mul_grid_ofInt _ _ _ (by omega) (by omega) he,
      Double.add_grid _ _ _ (by omega) he,
      ih (acc + (units x.product : Int) * x.quantity) (by omega)
        (fun y hy => hq y (List.mem_cons_of_mem _ hy))
        (fun y hy => hgrid y (List.mem_cons_of_mem _ hy)) (by omega)]
    congr 2
    omega

theorem getSubtotal_isRepresentable (store : Store) (cart : ShoppingCart)
    (hne : cart.isEmpty = false) :
    Double.isRepresentable (cart.getSubtotal store) = true := by
  rcases List.eq_nil_or_concat cart.items with h | ⟨init, last, h⟩
  · simp [ShoppingCart.isEmpty, h] at hne
  · unfold ShoppingCart.getSubtotal
    rw [h, List.concat_eq_append, List.foldl_append]
    exact Double.isRepresentable_add _ _

theorem fee_zero : ShippingService.calculateFee [] = some Double.zero := by decide

theorem ceil_zero_mul : Double.ceil (Double.mul Double.zero (Double.ofInt 30)) = Double.zero := by
  decide

/-- C19, amended. For a cart whose line quantities are positive: when the
weights of the lines that require shipping are whole multiples of one power of
two (whole kilograms, for instance), the quantities fit an `int` and the total
stays below `2 ^ 53` such multiples, the fee computed unit by unit is the
closed form, the ceiling of 30 times the sum of weight times quantity; and a
cart of digital products only has fee 0, in closed form as well, and its
checkout with a sufficient balance charges exactly the subtotal. -/
theorem fee_closed_form (store : Store) (cart : ShoppingCart)
    (hpos : ∀ item ∈ cart.items, 0 < item.quantity) :
    (∀ (e : Nat) (units : ProductId → Nat), e ≤ Double.unitExponent →
        (∀ item ∈ cart.items, (store item.product).requiresShipping = true →
          ∃ exp, (store item.product).kind =
            .physical (Double.fin ((units item.product : Int) * 2 ^ e)) exp) →
        (∀ item ∈ cart.items, item.quantity ≤ INT_MAX) →
        ((cart.items.filter (fun item => (store item.product).requiresShipping)).map
          (fun item => (units item.product : Int) * item.quantity)).sum < 2 ^ 53 →
        ShippingService.calculateFee (cart.getShippableItems store) =
          some (ShippingService.closedFormFee store cart)) ∧
      ((∀ item ∈ cart.items, (store item.product).kind = .digital) →
        ShippingService.calculateFee (cart.getShippableItems store) = some Double.zero ∧
          ShippingService.closedFormFee store cart = Double.zero ∧
          ∀ customer : Customer, cart.isEmpty = false →
            Double.le (cart.getSubtotal store) customer.balance = true →
            (checkout customer cart store).outcome =
                .settled (cart.getSubtotal store) Double.zero (cart.getSubtotal store)
                  (Double.sub customer.balance (cart.getSubtotal store)) ∧
              (checkout customer cart store).customer.balance =
                Double.sub customer.balance (cart.getSubtotal store)) := by
  constructor
  · intro e units he hgrid hint hbound
    have hunit := perUnit_grid store e units he cart.items 0 (le_refl _) hpos hgrid
      (by simpa using hbound)
    have hclosed := closedForm_grid store e units he
      (cart.items.filter (fun item => (store item.product).requiresShipping)) 0 (le_refl _)
      (fun item hitem =>
        ⟨hpos item (List.mem_of_mem_filter hitem), hint item (List.mem_of_mem_filter hitem)⟩)
      (fun item hitem => by
        have hreq : (store item.product).requiresShipping = true := by
          simpa using (List.mem_filter.mp hitem).2
        obtain ⟨exp, hkind⟩ := hgrid item (List.mem_of_mem_filter hitem) hreq
        simp [Product.getWeight, hkind])
      (by simpa using hbound)
    unfold ShippingService.calculateFee ShippingService.closedFormFee
    rw [getShippableItems_eq_flatMap, zero_grid e, hunit, hclosed]
  · intro hdig
    have hnil : cart.getShippableItems store = [] := by
      rw [getShippableItems_eq_flatMap, List.flatMap_eq_nil_iff]
      intro item hitem
      simp [Product.requiresShipping, hdig item hitem]
    have hfilter : cart.items.filter (fun item => (store item.product).requiresShipping)
        = [] := by
      rw [List.filter_eq_nil_iff]
      intro item hitem
      simp [Product.requiresShipping, hdig item hitem]
    have hfee : ShippingService.calculateFee (cart.getShippableItems store) =
        some Double.zero := by
      rw [hnil]
      exact fee_zero
    refine ⟨hfee, ?_, ?_⟩
    · unfold ShippingService.closedFormFee
      rw [hfilter]
      exact ceil_zero_mul
    · intro customer hne hbal
      have htotal : Double.add (cart.getSubtotal store) Double.zero =
          cart.getSubtotal store :=
        Double.add_zero _ (getSubtotal_isRepresentable store cart hne)
      have hlt := Double.lt_eq_false_of_le _ _ hbal
      simp [checkout, hne, hfee, htotal, Customer.deduct, hlt, Customer.getBalance]

/-- C19 as stated fails. Eight units of a product weighing `0.7`: adding the
weight eight times gives `5.6000000000000005`, times 30 is
`168.00000000000003`, and the fee is 169; the closed form `0.7 * 8 = 5.6`,
times 30, gives 168. The exact product is no help: 240 times the stored weight
lies above 167 and not above 168. -/
theorem fee_closed_form_counterexample :
    heavyCart = ⟨[⟨0, 8⟩]⟩ ∧
      (∀ item ∈ heavyCart.items, 0 < item.quantity) ∧
      (heavyStore 0).getWeight = Double.lit 7 10 ∧
      heavyCart.getShippableItems heavyStore =
        List.replicate 8 (some ⟨"بسكويت", Double.lit 7 10⟩) ∧
      ShippingService.totalWeight Double.zero (heavyCart.getShippableItems heavyStore) =
        some (Double.lit 56000000000000005 10000000000000000) ∧
      ShippingService.calculateFee (heavyCart.getShippableItems heavyStore) =
        some (Double.ofInt 169) ∧
      Double.mul (heavyStore 0).getWeight (Double.ofInt 8) = Double.lit 56 10 ∧
      ShippingService.closedFormFee heavyStore heavyCart = Double.ofInt 168 ∧
      ShippingService.calculateFee (heavyCart.getShippableItems heavyStore) ≠
        some (ShippingService.closedFormFee heavyStore heavyCart) ∧
      167 * (Double.one : Int) < 240 * Double.units (heavyStore 0).getWeight ∧
      240 * Double.units (heavyStore 0).getWeight ≤ 168 * (Double.one : Int) := by
  decide

theorem parcelStore_weights (item : CartItem) (_hitem : item ∈ parcelCart.items)
    (hreq : (parcelStore item.product).requiresShipping = true) :
    ∃ exp, (parcelStore item.product).kind =
      .physical (Double.fin ((parcelUnits item.product : Int) * 2 ^ Double.unitExponent))
        exp := by
  rcases item with ⟨_ | id, q⟩
  · exact ⟨0, congrArg (fun w => ProductKind.physical w 0)
      (Double.ofInt_grid 4 (by norm_num))⟩
  · exact absurd hreq (by simp [parcelStore, digitalProduct, Product.requiresShipping])

/-- Two televisions of 4 kg and a card: the fee computed unit by unit, the
closed form and the number 240 agree. -/
theorem fee_closed_form_witness :
    (∀ item ∈ parcelCart.items, 0 < item.quantity) ∧
      parcelCart = ⟨[⟨0, 2⟩, ⟨1, 1⟩]⟩ ∧
      ShippingService.calculateFee (parcelCart.getShippableItems parcelStore) =
        some (ShippingService.closedFormFee parcelStore parcelCart) ∧
      ShippingService.closedFormFee parcelStore parcelCart = Double.ofInt 240 :=
  have hpos : ∀ item ∈ parcelCart.items, 0 < item.quantity := by decide
  ⟨hpos, by decide,
    (fee_closed_form parcelStore parcelCart hpos).1 Double.unitExponent parcelUnits
      (le_refl _) parcelStore_weights (by decide) (by decide),
    by decide⟩
